import Mathlib

/-!
# Verification of the codeflash optimization-verification pipeline

A shallow embedding, in Lean 4, of the core of the codeflash repository:

* `codeflash/verification/comparator.py` — the deep structural value comparator;
* `codeflash/verification/equivalence.py` — `cleanup_stdout` and `compare_test_results`;
* `codeflash/result/critic.py` — `performance_gain`, `speedup_critic`,
  `quantity_of_tests_critic`;
* the decision tails of `Optimizer.establish_original_code_baseline`,
  `Optimizer.run_optimized_candidate` and the interrupt handler of
  `Optimizer.determine_best_candidate` in `codeflash/optimization/optimizer.py`.

Python values flowing through the comparator are embedded as the inductive type
`Value`; Python `int` runtimes (nanoseconds) as `Nat`; Python `float` arithmetic
in the critics as exact rational arithmetic (`ℚ`); a raised Python exception as
an `Except`/`Option` error value.  The module `codeflash/verification/test_results.py`
(class `TestResults` and its query methods) and `codeflash/code_utils/config_consts.py`
(the constant `MIN_IMPROVEMENT_THRESHOLD`) are referenced by the embedded code but
are not part of the source tree; the definitions standing in for them are modelled
from the specification and are marked `Modelled from the spec:` in their doc comments.
-/

namespace Codeflash

/-! ## Python floats

An idealized Python `float`: a finite value (modelled as an exact rational),
a signed infinity, or a NaN.  `math.isclose` defaults to
`rel_tol = 1e-9, abs_tol = 0.0`. -/

inductive PyFloat where
  | finite (q : ℚ)
  | infty (pos : Bool)
  | nan
deriving DecidableEq

/-- Python's `math.isnan`. -/
def PyFloat.isnan : PyFloat → Bool
  | .nan => true
  | _ => false

/-- Python's `math.isclose(a, b)` with the default `rel_tol=1e-9`, `abs_tol=0.0`:
for finite arguments `abs(a-b) <= max(rel_tol * max(abs(a), abs(b)), abs_tol)`;
two infinities are close iff they are equal; NaN is close to nothing. -/
def PyFloat.isclose : PyFloat → PyFloat → Bool
  | .finite a, .finite b => |a - b| ≤ max ((1 / 1000000000) * max |a| |b|) 0
  | .infty s, .infty t => s = t
  | _, _ => false

/-- Python `==` on floats: exact on finite values and infinities, and
`nan != nan`. -/
def PyFloat.pyEq : PyFloat → PyFloat → Bool
  | .finite a, .finite b => a = b
  | .infty s, .infty t => s = t
  | _, _ => false

/-! ## The embedded value domain

`Value` covers the branches of `comparator` that do not depend on the optional
third-party libraries (`numpy`/`scipy`/`pandas`/`sqlalchemy`, whose guarded
imports are modelled as absent): `None`, `bool`, `int`, `str`, `float`,
`decimal.Decimal` (embedded at its numeric value), `list`, `tuple`, `set` and
`dict`.  `raisingObj cls tag` models an instance of a user-defined class whose
`__hash__` is value-based and whose `__eq__` raises: the one kind of value whose
comparison lets an exception escape `comparator` (Python `==` on a `set`
containing such objects propagates the exception, since `comparator`'s outer
`try` catches only `RecursionError`).  Numeric cross-type equality
(`True == 1`, `Decimal(1) == 1`) is not modelled: elements are compared
constructor-wise. -/

inductive Value where
  | vNone
  | vBool (b : Bool)
  | vInt (n : ℤ)
  | vStr (s : String)
  | vFloat (f : PyFloat)
  | vDecimal (q : ℚ)
  | vList (xs : List Value)
  | vTuple (xs : List Value)
  | vSet (xs : List Value)
  | vDict (xs : List (Value × Value))
  | raisingObj (cls tag : ℕ)

/-! Structural (Boolean) equality on `Value`; `deriving DecidableEq` is not
available for nested inductives, so it is spelled out. -/

mutual

def Value.beq : Value → Value → Bool
  | .vNone, .vNone => true
  | .vBool a, .vBool b => a = b
  | .vInt a, .vInt b => a = b
  | .vStr a, .vStr b => a = b
  | .vFloat a, .vFloat b => a = b
  | .vDecimal a, .vDecimal b => a = b
  | .vList a, .vList b => Value.beqList a b
  | .vTuple a, .vTuple b => Value.beqList a b
  | .vSet a, .vSet b => Value.beqList a b
  | .vDict a, .vDict b => Value.beqPairs a b
  | .raisingObj c t, .raisingObj c' t' => c = c' && t = t'
  | _, _ => false
termination_by structural a => a

def Value.beqList : List Value → List Value → Bool
  | [], [] => true
  | x :: xs, y :: ys => Value.beq x y && Value.beqList xs ys
  | _, _ => false
termination_by structural a => a

def Value.beqPairs : List (Value × Value) → List (Value × Value) → Bool
  | [], [] => true
  | (k, v) :: xs, (k', v') :: ys => Value.beq k k' && Value.beq v v' && Value.beqPairs xs ys
  | _, _ => false
termination_by structural a => a

end

instance instBEqValue : BEq Value := ⟨Value.beq⟩

/-- A Python exception escaping an embedded function. -/
inductive PyExn where
  | userEqError
  | attrError
deriving DecidableEq

/-! ### Python `==` (value equality)

`pyEq` models the Python equality used by the `orig == new` branch of
`comparator` (primitives and sets) and by `dict` key lookup.  Element-wise
comparisons inside containers go through `PyObject_RichCompareBool`, which
short-circuits on object identity before calling `__eq__`; a value and a
(deep) copy of the same source value are embedded as structurally identical
terms, so the identity short-circuit is modelled as structural equality of the
embedding. -/

mutual

def pyEq : Value → Value → Except PyExn Bool
  | .raisingObj _ _, _ => .error .userEqError
  | _, .raisingObj _ _ => .error .userEqError
  | .vNone, .vNone => .ok true
  | .vBool a, .vBool b => .ok (a = b)
  | .vInt a, .vInt b => .ok (a = b)
  | .vStr a, .vStr b => .ok (a = b)
  | .vFloat a, .vFloat b => .ok (a.pyEq b)
  | .vDecimal a, .vDecimal b => .ok (a = b)
  | .vList a, .vList b => pyEqList a b
  | .vTuple a, .vTuple b => pyEqList a b
  | .vSet a, .vSet b => pyEqSet a b
  | .vDict a, .vDict b => pyEqDict a b
  | _, _ => .ok false

/-- Sequence equality: lengths equal and elements pairwise identical-or-equal. -/
def pyEqList : List Value → List Value → Except PyExn Bool
  | [], [] => .ok true
  | [], _ :: _ => .ok false
  | _ :: _, [] => .ok false
  | x :: xs, y :: ys =>
    if x == y then pyEqList xs ys
    else
      match pyEq x y with
      | .error e => .error e
      | .ok true => pyEqList xs ys
      | .ok false => .ok false

/-- Set equality: equal cardinality and every element of the first a member of
the second (CPython's `set_richcompare` for `==`). -/
def pyEqSet (xs ys : List Value) : Except PyExn Bool :=
  if xs.length = ys.length then pyEqSubset xs ys else .ok false

def pyEqSubset : List Value → List Value → Except PyExn Bool
  | [], _ => .ok true
  | x :: xs, ys =>
    match pyEqMem x ys with
    | .error e => .error e
    | .ok true => pyEqSubset xs ys
    | .ok false => .ok false

/-- Membership via identity-or-equality against each element in turn. -/
def pyEqMem : Value → List Value → Except PyExn Bool
  | _, [] => .ok false
  | x, y :: ys =>
    if x == y then .ok true
    else
      match pyEq x y with
      | .error e => .error e
      | .ok true => .ok true
      | .ok false => pyEqMem x ys

/-- Dict equality: equal size, every key of the first present in the second
with an equal value. -/
def pyEqDict (xs ys : List (Value × Value)) : Except PyExn Bool :=
  if xs.length = ys.length then pyEqDictSub xs ys else .ok false

def pyEqDictSub : List (Value × Value) → List (Value × Value) → Except PyExn Bool
  | [], _ => .ok true
  | (k, v) :: xs, ys =>
    match pyDictLookup k ys with
    | .error e => .error e
    | .ok none => .ok false
    | .ok (some w) =>
      if v == w then pyEqDictSub xs ys
      else
        match pyEq v w with
        | .error e => .error e
        | .ok true => pyEqDictSub xs ys
        | .ok false => .ok false

/-- Dict key lookup via identity-or-equality on the keys, first match wins. -/
def pyDictLookup : Value → List (Value × Value) → Except PyExn (Option Value)
  | _, [] => .ok none
  | k, (k', v) :: ys =>
    if k == k' then .ok (some v)
    else
      match pyEq k k' with
      | .error e => .error e
      | .ok true => .ok (some v)
      | .ok false => pyDictLookup k ys

end

/-! ## The comparator (`codeflash/verification/comparator.py`, `comparator`)

Branch order follows the source.  The guarded third-party imports
(`sqlalchemy`, `numpy`, `scipy`, `pandas`) are modelled as absent, so the ORM
branch, the numeric-array/sparse/tabular branches and the `np.isnan`/`np.isinf`
probes are skipped.  The leading `type(orig) != type(new)` check appears here as
the cross-constructor fall-through returning `False` (and, for `raisingObj`, as
the class comparison).  `datetime` values are outside the embedded domain.  For
two `raisingObj`s of the same class, the user-defined-`__eq__` probe calls
`orig == new` inside a `try` that swallows the raised exception, so control
falls through to the permissive default, which logs a warning and returns
`True`. -/

mutual

def comparator : Value → Value → Except PyExn Bool
  -- isinstance(orig, (list, tuple)): length check, then pairwise recursion
  | .vList xs, .vList ys => if xs.length = ys.length then comparatorList xs ys else .ok false
  | .vTuple xs, .vTuple ys => if xs.length = ys.length then comparatorList xs ys else .ok false
  -- isinstance(orig, (str, int, bool, complex, type(None), decimal.Decimal, set)):
  -- return orig == new
  | orig@(.vNone), new@(.vNone) => pyEq orig new
  | orig@(.vBool _), new@(.vBool _) => pyEq orig new
  | orig@(.vInt _), new@(.vInt _) => pyEq orig new
  | orig@(.vStr _), new@(.vStr _) => pyEq orig new
  | orig@(.vDecimal _), new@(.vDecimal _) => pyEq orig new
  | orig@(.vSet _), new@(.vSet _) => pyEq orig new
  -- isinstance(orig, float): NaN==NaN, else math.isclose
  | .vFloat a, .vFloat b => if a.isnan && b.isnan then .ok true else .ok (a.isclose b)
  -- isinstance(orig, dict): length check, each key of orig must be in new,
  -- values compared with the comparator recursively
  | .vDict xs, .vDict ys => if xs.length = ys.length then comparatorDictEntries ys xs else .ok false
  -- user-defined __eq__ probe (exception swallowed), then permissive default
  | .raisingObj c _, .raisingObj c' _ => if c = c' then .ok true else .ok false
  -- type(orig) != type(new)
  | _, _ => .ok false

def comparatorList : List Value → List Value → Except PyExn Bool
  | x :: xs, y :: ys =>
    match comparator x y with
    | .error e => .error e
    | .ok true => comparatorList xs ys
    | .ok false => .ok false
  | _, _ => .ok true

def comparatorDictEntries (newEntries : List (Value × Value)) :
    List (Value × Value) → Except PyExn Bool
  | [] => .ok true
  | (k, v) :: rest =>
    match pyDictLookup k newEntries with
    | .error e => .error e
    | .ok none => .ok false
    | .ok (some w) =>
      match comparator v w with
      | .error e => .error e
      | .ok true => comparatorDictEntries newEntries rest
      | .ok false => .ok false

end

/-! ## `copy.deepcopy` and the supported domain -/

mutual

/-- Python's `copy.deepcopy`: rebuilds containers recursively; immutable atoms are
shared (embedded: returned unchanged); a user-defined object is copied into a
fresh object with the same class and state. -/
def deepcopy : Value → Value
  | .vList xs => .vList (deepcopyList xs)
  | .vTuple xs => .vTuple (deepcopyList xs)
  | .vSet xs => .vSet (deepcopyList xs)
  | .vDict xs => .vDict (deepcopyPairs xs)
  | .vNone => .vNone
  | .vBool b => .vBool b
  | .vInt n => .vInt n
  | .vStr s => .vStr s
  | .vFloat f => .vFloat f
  | .vDecimal q => .vDecimal q
  | .raisingObj c t => .raisingObj c t
termination_by structural a => a

def deepcopyList : List Value → List Value
  | [] => []
  | x :: xs => deepcopy x :: deepcopyList xs
termination_by structural a => a

def deepcopyPairs : List (Value × Value) → List (Value × Value)
  | [] => []
  | (k, v) :: xs => (deepcopy k, deepcopy v) :: deepcopyPairs xs
termination_by structural a => a

end

mutual

/-- No user-defined raising equality anywhere inside the value: comparing two
such values can never let an exception escape. -/
def exnFree : Value → Bool
  | .raisingObj _ _ => false
  | .vList xs => exnFreeList xs
  | .vTuple xs => exnFreeList xs
  | .vSet xs => exnFreeList xs
  | .vDict xs => exnFreePairs xs
  | _ => true
termination_by structural a => a

def exnFreeList : List Value → Bool
  | [] => true
  | x :: xs => exnFree x && exnFreeList xs
termination_by structural a => a

def exnFreePairs : List (Value × Value) → Bool
  | [] => true
  | (k, v) :: xs => exnFree k && exnFree v && exnFreePairs xs
termination_by structural a => a

end

/-- The Boolean result of a Python `==` that completed without raising
(`false` when it raised). -/
def pyEqBool (x y : Value) : Bool :=
  match pyEq x y with
  | .ok b => b
  | .error _ => false

/-- The key `k` is distinct — neither identical nor `==`-equal, in either orientation —
from every key of the entry list. -/
def keyNotIn (k : Value) : List (Value × Value) → Bool
  | [] => true
  | (k', _) :: rest =>
    !(k == k') && !(k' == k) && !pyEqBool k k' && !pyEqBool k' k && keyNotIn k rest

mutual

/-- Every `dict` inside the value has pairwise-distinct keys — the invariant
Python's `dict` maintains by construction. -/
def dictKeysOk : Value → Bool
  | .vList xs => dictKeysOkList xs
  | .vTuple xs => dictKeysOkList xs
  | .vSet xs => dictKeysOkList xs
  | .vDict xs => dictKeysOkPairs xs
  | _ => true
termination_by structural a => a

def dictKeysOkList : List Value → Bool
  | [] => true
  | x :: xs => dictKeysOk x && dictKeysOkList xs
termination_by structural a => a

def dictKeysOkPairs : List (Value × Value) → Bool
  | [] => true
  | (k, v) :: xs => keyNotIn k xs && dictKeysOk k && dictKeysOk v && dictKeysOkPairs xs
termination_by structural a => a

end

/-- The supported domain for the comparator: values built only from the type
families the comparator explicitly handles (no user-defined raising equality),
with Python's own container invariant that dict keys are pairwise distinct. -/
def supportedValue (v : Value) : Bool :=
  exnFree v && dictKeysOk v

/-! ## `cleanup_stdout` (`codeflash/verification/equivalence.py`)

The two regular expressions are hand-compiled: `percentage_pattern` is
`\.\s+\[\d+%\]` and `passed_pattern` is `\d+\s+passed\s+in\s+\d+\.\d+s`, both
used with `re.search`.  Since each `+`-repetition is over a character class
disjoint from the character that follows it, greedy matching without
backtracking is exact.  `str.splitlines` is modelled for newline-separated
text. -/

/-- Python's `\s` class. -/
def isPySpace (c : Char) : Bool :=
  c = ' ' || c = '\t' || c = '\n' || c = '\r' || c = '\x0b' || c = '\x0c'

/-- Consume one-or-more characters satisfying `p` (greedy), or fail. -/
def dropWhile1 (p : Char → Bool) : List Char → Option (List Char)
  | [] => none
  | c :: cs => if p c then some (cs.dropWhile p) else none

/-- Match `\s+\[\d+%\]` (the part of `percentage_pattern` after the dot). -/
def percentageFrom (l : List Char) : Bool :=
  match dropWhile1 isPySpace l with
  | none => false
  | some l =>
    match l with
    | '[' :: l =>
      match dropWhile1 Char.isDigit l with
      | some ('%' :: ']' :: _) => true
      | _ => false
    | _ => false

/-- Search (`re.search`) of `percentage_pattern`: some position starts `\.` followed by
`\s+\[\d+%\]`. -/
def percentageSearch : List Char → Bool
  | [] => false
  | c :: cs => (c = '.' && percentageFrom cs) || percentageSearch cs

/-- Match `\d+\s+passed\s+in\s+\d+\.\d+s` from the current position. -/
def passedFrom (l : List Char) : Bool :=
  match dropWhile1 Char.isDigit l with
  | none => false
  | some l =>
    match dropWhile1 isPySpace l with
    | some ('p' :: 'a' :: 's' :: 's' :: 'e' :: 'd' :: l) =>
      match dropWhile1 isPySpace l with
      | some ('i' :: 'n' :: l) =>
        match dropWhile1 isPySpace l with
        | none => false
        | some l =>
          match dropWhile1 Char.isDigit l with
          | some ('.' :: l) =>
            match dropWhile1 Char.isDigit l with
            | some ('s' :: _) => true
            | _ => false
          | _ => false
      | _ => false
    | _ => false

/-- Search (`re.search`) of `passed_pattern`. -/
def passedSearch : List Char → Bool
  | [] => false
  | l@(_ :: cs) => passedFrom l || passedSearch cs

/-- The needle occurs at the start of the haystack. -/
def startsWithChars : List Char → List Char → Bool
  | _, [] => true
  | [], _ :: _ => false
  | c :: cs, d :: ds => c = d && startsWithChars cs ds

/-- Python's substring test `needle in haystack`. -/
def containsSub : List Char → List Char → Bool
  | [], pat => pat.isEmpty
  | l@(_ :: cs), pat => startsWithChars l pat || containsSub cs pat

/-- Python's `str.splitlines` for newline-separated text: no trailing empty line when
the string ends in a newline, and no lines at all for the empty string. -/
def pySplitlines (s : String) : List String :=
  if s = "" then []
  else
    let parts := s.splitOn "\n"
    if s.endsWith "\n" then parts.dropLast else parts

/-- A line is dropped when it contains one of the `not_allowed` words
(`"test"`, `"codeflash"`) or matches either framework-noise pattern. -/
def lineExcluded (line : String) : Bool :=
  containsSub line.data "test".data || containsSub line.data "codeflash".data ||
    percentageSearch line.data || passedSearch line.data

/-- The function `cleanup_stdout`: keep the non-noise lines, joined with newlines, plus a
trailing newline. -/
def cleanup_stdout (stdout : String) : String :=
  String.intercalate "\n" ((pySplitlines stdout).filter (fun l => !lineExcluded l)) ++ "\n"

/-! ## Test results

`codeflash/verification/test_results.py` is not part of the source tree (only
its importers are), so the record types and the query methods used by
`equivalence.py`, `critic.py` and `optimizer.py` are modelled from the spec's
data-model section: an `InvocationId` is a composite key; a
`FunctionTestInvocation` is one observed outcome (pass flag, nullable
nanosecond runtime, captured return value, captured stdout, timed-out flag,
test-type tag, verification-type tag, loop index); a `TestResults` is an
ordered sequence of invocations. -/

/-- The four test-type tags (existing unit test / generated regression /
replay trace / concolic coverage). -/
inductive TestType where
  | existingUnitTest
  | generatedRegression
  | replayTest
  | concolicCoverageTest
deriving DecidableEq

/-- The list of all test types, for iteration over a per-type report. -/
def TestType.all : List TestType :=
  [.existingUnitTest, .generatedRegression, .replayTest, .concolicCoverageTest]

inductive VerificationType where
  | functionCall
  | initStateFto
  | initStateHelper
deriving DecidableEq

/-- Modelled from the spec: composite key identifying one test invocation
(test module path, optional test class name, test function name, name of the
function under test, iteration identifier); equality considers all fields. -/
structure InvocationId where
  testModulePath : String
  testClassName : Option String
  testFunctionName : Option String
  functionGettingTested : String
  iterationId : Option String
deriving DecidableEq

/-- Modelled from the spec: one concrete observed test outcome. -/
structure FunctionTestInvocation where
  id : InvocationId
  loopIndex : ℕ
  testType : TestType
  didPass : Bool
  runtime : Option ℕ
  timedOut : Bool
  returnValue : Value
  stdout : String
  verificationType : Option VerificationType

/-- Modelled from the spec: ordered collection of invocation outcomes. -/
abbrev TestResults := List FunctionTestInvocation

/-- Modelled from the spec: the set of loop-index-aware invocation identities
occurring in the collection (`TestResults.get_all_unique_invocation_loop_ids`). -/
def get_all_unique_invocation_loop_ids (rs : TestResults) : List (InvocationId × ℕ) :=
  (rs.map (fun r => (r.id, r.loopIndex))).dedup

/-- Modelled from the spec: lookup of the invocation with the given
loop-index-aware identity (`TestResults.get_by_unique_invocation_loop_id`). -/
def get_by_unique_invocation_loop_id (rs : TestResults) (uid : InvocationId × ℕ) :
    Option FunctionTestInvocation :=
  rs.find? (fun r => (r.id, r.loopIndex) = uid)

/-! ## `compare_test_results` (`codeflash/verification/equivalence.py`)

The function temporarily raises the interpreter recursion limit to
`INCREASED_RECURSION_LIMIT = 5000` (when the current limit is lower), walks the
union of invocation identities, and sets the limit back after the loop.  There
is no `try`/`finally`: an exception raised inside the loop leaves the function
without the restoring `sys.setrecursionlimit` call.  `compareLoop` returns the
pair `(are_equal, did_all_timeout)` of the loop's state variables at exit; a
`break` in the source is a return with the state at that point.  The
`superset_obj` flag computed for `INIT_STATE` verification types modifies only
the ORM-attribute branch of the comparator, which is outside the embedded value
domain, so the flag is not threaded through.  Python iterates the identity
superset in unspecified set order; the embedding fixes the order
original-before-candidate, first occurrence first. -/

def INCREASED_RECURSION_LIMIT : ℕ := 5000

/-- The union `original ∪ candidate` of loop-index-aware identities. -/
def test_ids_superset (o c : TestResults) : List (InvocationId × ℕ) :=
  (get_all_unique_invocation_loop_ids o ++ get_all_unique_invocation_loop_ids c).dedup

/-- The body of the comparison loop.  The `(none, none)` case models the
`AttributeError` the source would raise at
`original_test_result.verification_type` when both lookups miss; it is
unreachable for identities drawn from the superset. -/
def compareLoop (o c : TestResults) :
    List (InvocationId × ℕ) → Bool → Except PyExn (Bool × Bool)
  | [], dat => .ok (true, dat)
  | uid :: rest, dat =>
    match get_by_unique_invocation_loop_id o uid, get_by_unique_invocation_loop_id c uid with
    | none, some _ => compareLoop o c rest dat
    | none, none => .error .attrError
    | some orig, none =>
      if orig.verificationType = some .initStateHelper then compareLoop o c rest dat
      else .ok (false, dat)
    | some orig, some cdd =>
      let dat := dat && orig.timedOut
      if orig.timedOut then compareLoop o c rest dat
      else
        match comparator orig.returnValue cdd.returnValue with
        | .error e => .error e
        | .ok false => .ok (false, dat)
        | .ok true =>
          if (orig.testType = .existingUnitTest ∨ orig.testType = .concolicCoverageTest) ∧
              cdd.didPass ≠ orig.didPass then .ok (false, dat)
          else
            match comparator (.vStr (cleanup_stdout orig.stdout))
                (.vStr (cleanup_stdout cdd.stdout)) with
            | .error e => .error e
            | .ok false => .ok (false, dat)
            | .ok true => compareLoop o c rest dat

/-- The function `compare_test_results`, instrumented with the interpreter recursion limit:
given the limit in force on entry, returns the outcome (`Bool`, or an escaped
exception) together with the recursion limit in force on exit. -/
def compare_test_results_sys (limit : ℕ) (o c : TestResults) : Except PyExn Bool × ℕ :=
  if o.isEmpty || c.isEmpty then (.ok false, limit)
  else
    let raised := if limit < INCREASED_RECURSION_LIMIT then INCREASED_RECURSION_LIMIT else limit
    match compareLoop o c (test_ids_superset o c) true with
    | .error e => (.error e, raised)
    | .ok (areEqual, didAllTimeout) =>
      (.ok (if didAllTimeout then false else areEqual), limit)

/-- CPython's default interpreter recursion limit. -/
def DEFAULT_RECURSION_LIMIT : ℕ := 1000

/-- The function `compare_test_results` as seen by its callers: the Boolean outcome (or the
escaped exception). -/
def compare_test_results (o c : TestResults) : Except PyExn Bool :=
  (compare_test_results_sys DEFAULT_RECURSION_LIMIT o c).1

/-- Every captured return value in the collection is free of raising
user-defined equality (the spec's comparator contract assumes comparisons do
not raise). -/
def exnFreeResults (rs : TestResults) : Bool :=
  rs.all (fun r => exnFree r.returnValue)

/-! ## The acceptance critics (`codeflash/result/critic.py`)

`MIN_IMPROVEMENT_THRESHOLD` comes from `codeflash/code_utils/config_consts.py`,
which is not part of the source tree; modelled from the spec ("a fixed
minimum-improvement threshold … kept as a named, overridable constant") as an
explicit parameter.  `in_github_actions_mode = bool(env_utils.get_pr_number())`
reads the ambient environment (`CODEFLASH_PR_NUMBER`); it is passed as an
explicit Boolean.  Python float arithmetic is modelled as exact rational
arithmetic. -/

/-- The record `OptimizedCandidateResult` as the embedded pipeline uses it.  The winning
behavioral results field is written `behavior_test_results` at the construction
site in `optimizer.py` and read as `best_test_results` in `critic.py` (the
snapshot's `models.py` lags both); one field models it here. -/
structure OptimizedCandidateResult where
  max_loop_count : ℕ
  best_test_runtime : ℕ
  best_test_results : TestResults
  benchmarking_test_results : TestResults

/-- The function `performance_gain`: `(original - optimized) / optimized`.  Python raises
`ZeroDivisionError` when `optimized_runtime_ns == 0`, modelled as `none`. -/
def performance_gain (original_runtime_ns optimized_runtime_ns : ℕ) : Option ℚ :=
  if optimized_runtime_ns = 0 then none
  else some (((original_runtime_ns : ℚ) - (optimized_runtime_ns : ℚ)) / (optimized_runtime_ns : ℚ))

/-- The function `speedup_critic`: the noise floor is the threshold, doubled below 10µs
original runtime, doubled again in GitHub-Actions mode; accept iff the gain
exceeds the noise floor and the candidate beats the best runtime so far.
`none` models the `ZeroDivisionError` propagating out of `performance_gain`. -/
def speedup_critic (MIN_IMPROVEMENT_THRESHOLD : ℚ) (in_github_actions_mode : Bool)
    (candidate_result : OptimizedCandidateResult)
    (original_code_runtime best_runtime_until_now : ℕ) : Option Bool :=
  let base := if original_code_runtime < 10000
    then 2 * MIN_IMPROVEMENT_THRESHOLD else MIN_IMPROVEMENT_THRESHOLD
  let noise_floor := if in_github_actions_mode then base * 2 else base
  match performance_gain original_code_runtime candidate_result.best_test_runtime with
  | none => none
  | some perf_gain =>
    some (decide (perf_gain > noise_floor ∧
      candidate_result.best_test_runtime < best_runtime_until_now))

/-- Modelled from the spec: per-test-type pass counts
(`TestResults.get_test_pass_fail_report_by_type`, from the missing
`test_results.py`; the spec counts "total passed tests across all test types",
so the report covers every test type, with zero for types that did not run). -/
def get_test_pass_fail_report_by_type (rs : TestResults) (t : TestType) : ℕ :=
  (rs.filter (fun r => decide (r.testType = t) && r.didPass)).length

/-- The `pass_count` accumulation loop of `quantity_of_tests_critic`: the
total number of passed tests across all test types. -/
def totalPassCount (rs : TestResults) : ℕ :=
  TestType.all.foldl (fun a t => a + get_test_pass_fail_report_by_type rs t) 0

/-- The function `quantity_of_tests_critic`.  Mirrors the source's control flow: in
GitHub-Actions mode the `pass_count >= 4` test, otherwise the
`pass_count >= 2` test, and in either mode a fall-through to the final
single-replay-test check. -/
def quantity_of_tests_critic (in_github_actions_mode : Bool)
    (candidate_result : OptimizedCandidateResult) : Bool :=
  let report := get_test_pass_fail_report_by_type candidate_result.best_test_results
  let pass_count := totalPassCount candidate_result.best_test_results
  if in_github_actions_mode then
    if 4 ≤ pass_count then true
    else decide (pass_count = 1) && decide (report .replayTest = 1)
  else if 2 ≤ pass_count then true
  else decide (pass_count = 1) && decide (report .replayTest = 1)

/-! ## Baseline and candidate measurement
(`codeflash/optimization/optimizer.py`)

`TestResults.total_passed_runtime` lives in the missing `test_results.py`. -/

/-- The total runtime of the passed tests of one measurement loop. -/
def loopTotal (rs : TestResults) (i : ℕ) : ℕ :=
  (rs.filter (fun r => decide (r.loopIndex = i) && r.didPass)).foldl
    (fun a r => a + r.runtime.getD 0) 0

/-- The measurement-loop indices occurring in the collection. -/
def loopIndices (rs : TestResults) : List ℕ :=
  (rs.map (fun r => r.loopIndex)).dedup

/-- Modelled from the spec: `TestResults.total_passed_runtime` — the
authoritative total is the **minimum**, across the measurement loops, of each
loop's total passed-test runtime ("Track the minimum total runtime seen across
loops", minimum-runtime baseline law); `0` when no loop ran. -/
def total_passed_runtime (rs : TestResults) : ℕ :=
  match (loopIndices rs).map (loopTotal rs) with
  | [] => 0
  | t :: ts => ts.foldl min t

/-- The record `OriginalCodeBaseline` as constructed by
`establish_original_code_baseline` (coverage omitted). -/
structure OriginalCodeBaseline where
  behavioral_test_results : TestResults
  benchmarking_test_results : TestResults
  runtime : ℕ

/-- The decision tail of `Optimizer.establish_original_code_baseline`, given
the parsed behavioral and benchmarking results: collect the failing generated
regression tests to remove, fail when no behavioral results or when the total
timing is zero (for naturals the source's `total_timing == 0` and falsy
`not total_timing` checks coincide), and otherwise return the baseline with
`runtime = total_passed_runtime`. -/
def establish_original_code_baseline (behavioral_results benchmarking_results : TestResults) :
    Except String (OriginalCodeBaseline × List (Option String)) :=
  let total_timing := total_passed_runtime benchmarking_results
  let functions_to_remove :=
    (behavioral_results.filter
      (fun r => decide (r.testType = .generatedRegression) && !r.didPass)).map
      (fun r => r.id.testFunctionName)
  if behavioral_results.isEmpty || total_timing = 0 then
    .error "Failed to establish a baseline for the original code."
  else
    .ok (⟨behavioral_results, benchmarking_results, total_timing⟩, functions_to_remove)

/-- Outcome of `Optimizer.run_optimized_candidate`: a returned
`Failure`/`Success`, or an uncaught Python exception. -/
inductive CandidateRunResult where
  | exn (e : PyExn)
  | failure (msg : String)
  | success (r : OptimizedCandidateResult)

/-- The decision tail of `Optimizer.run_optimized_candidate`, given the
baseline behavioral results and the candidate's parsed behavioral and
benchmarking results: fail when the behavioral comparison fails; then compute
the candidate timing.  When `total_passed_runtime` is zero the source only
logs a warning ("The overall test runtime of the optimized function is 0,
couldn't run tests.") and still returns `Success`. -/
def run_optimized_candidate
    (baseline_behavioral candidate_behavior_results candidate_benchmarking_results : TestResults)
    (loop_count : ℕ) : CandidateRunResult :=
  match compare_test_results baseline_behavioral candidate_behavior_results with
  | .error e => .exn e
  | .ok false => .failure "Test results did not match the test results of the original code."
  | .ok true =>
    let total_candidate_timing := total_passed_runtime candidate_benchmarking_results
    .success
      ⟨loop_count, total_candidate_timing, candidate_behavior_results,
        candidate_benchmarking_results⟩

/-! ## The candidate-evaluation loop and its interrupt handler
(`Optimizer.determine_best_candidate`)

The working tree is modelled as a total map from paths to file contents.  One
candidate's evaluation (replace the function and helpers with optimized code,
run the candidate, restore) is a state transformer on the file system that
either completes or is interrupted (`KeyboardInterrupt`) at an arbitrary
intermediate state.  The source wraps the whole candidate loop in
`try … except KeyboardInterrupt: self.write_code_and_helpers(original_code,
original_helper_code, function_to_optimize.file_path); raise`. -/

abbrev FileSystem := String → String

/-- Write each helper file's content at its path, in order (later entries
overwrite earlier ones for the same path, matching sequential file writes). -/
def writeHelpers : List (String × String) → FileSystem → FileSystem
  | [], fs => fs
  | (q, s) :: rest, fs => writeHelpers rest (fun p => if p = q then s else fs p)

/-- The method `Optimizer.write_code_and_helpers`: write the original code at the
function's path, then each helper file's original content at its path. -/
def write_code_and_helpers (original_code : String)
    (original_helper_code : List (String × String)) (path : String)
    (fs : FileSystem) : FileSystem :=
  writeHelpers original_helper_code (fun p => if p = path then original_code else fs p)

/-- The content that the sequence of helper writes leaves at path `p`
(the last entry for `p` wins), if any. -/
def lastHelperWrite (p : String) : List (String × String) → Option String
  | [] => none
  | (q, s) :: rest =>
    match lastHelperWrite p rest with
    | some s' => some s'
    | none => if p = q then some s else none

/-- One candidate's evaluation: either runs to completion in a new file-system
state, or is interrupted leaving an intermediate state. -/
inductive BodyOutcome where
  | completed (fs : FileSystem)
  | interrupted (fs : FileSystem)

abbrev CandidateBody := FileSystem → BodyOutcome

/-- Exit of the candidate loop: normal completion, or a `KeyboardInterrupt`
re-raised after the handler ran. -/
inductive LoopExit where
  | finished (fs : FileSystem)
  | interrupted (fs : FileSystem)

/-- The candidate loop of `determine_best_candidate` at the file-system level:
run each candidate body in turn; on `KeyboardInterrupt`, restore the original
code and helpers and re-raise. -/
def determine_best_candidate_fs (original_code : String)
    (original_helper_code : List (String × String)) (path : String) :
    List CandidateBody → FileSystem → LoopExit
  | [], fs => .finished fs
  | b :: rest, fs =>
    match b fs with
    | .completed fs' => determine_best_candidate_fs original_code original_helper_code path rest fs'
    | .interrupted fsMid =>
      .interrupted (write_code_and_helpers original_code original_helper_code path fsMid)

/-! ## Concrete measurement data

Closed inputs used to evaluate the embedded pipeline at specific points. -/

/-- Build one concrete test invocation. -/
def mkInvocation (name : String) (loop : ℕ) (tt : TestType) (pass : Bool)
    (rt : Option ℕ) (timedOutFlag : Bool) (rv : Value) : FunctionTestInvocation :=
  { id := { testModulePath := "unit/module.py", testClassName := none,
            testFunctionName := some name, functionGettingTested := "target",
            iterationId := some "0" }
    loopIndex := loop, testType := tt, didPass := pass, runtime := rt,
    timedOut := timedOutFlag, returnValue := rv, stdout := "",
    verificationType := some .functionCall }

/-- Behavioral results for the baseline example: one passed invocation. -/
def exBehavioral : TestResults :=
  [mkInvocation "alpha" 1 .generatedRegression true (some 120) false (.vInt 3)]

/-- Benchmarking results with per-loop totals 120, 95 and 130 ns across three
loops (loop 2 split over two invocations, plus one failed invocation whose
runtime must not count). -/
def exBenchmarking : TestResults :=
  [mkInvocation "alpha" 1 .generatedRegression true (some 120) false (.vInt 3),
   mkInvocation "alpha" 2 .generatedRegression true (some 60) false (.vInt 3),
   mkInvocation "beta" 2 .generatedRegression true (some 35) false (.vInt 4),
   mkInvocation "gamma" 2 .generatedRegression false (some 999) false (.vInt 5),
   mkInvocation "alpha" 3 .generatedRegression true (some 130) false (.vInt 3)]

/-- A candidate validated by exactly one passed replay-trace test. -/
def singleReplayResult : OptimizedCandidateResult :=
  { max_loop_count := 1, best_test_runtime := 50,
    best_test_results := [mkInvocation "replay" 1 .replayTest true (some 50) false .vNone],
    benchmarking_test_results := [] }

/-- A candidate measured at 800 ns. -/
def fastCandidateResult : OptimizedCandidateResult :=
  { max_loop_count := 5, best_test_runtime := 800,
    best_test_results := [], benchmarking_test_results := [] }

/-- Baseline behavioral results for the zero-timing candidate example. -/
def exBaselineBehavioral : TestResults :=
  [mkInvocation "alpha" 1 .existingUnitTest true (some 10) false (.vInt 42)]

/-- Candidate behavioral results identical in outcome to the baseline. -/
def exCandidateBehavioral : TestResults :=
  [mkInvocation "alpha" 1 .existingUnitTest true (some 9) false (.vInt 42)]

/-- The candidate record that `run_optimized_candidate` builds when the
behavioral gate passes but no timed loop succeeded. -/
def exZeroCandidate : OptimizedCandidateResult :=
  { max_loop_count := 0, best_test_runtime := 0,
    best_test_results := exCandidateBehavioral, benchmarking_test_results := [] }

/-- A pre-existing-test invocation that passed on the original but timed out
there. -/
def exAlphaOriginal : FunctionTestInvocation :=
  mkInvocation "alpha" 1 .existingUnitTest true none true (.vInt 0)

/-- The candidate-side invocation for the same identity: identical return
value, but now failing. -/
def exAlphaCandidate : FunctionTestInvocation :=
  mkInvocation "alpha" 1 .existingUnitTest false (some 8) false (.vInt 0)

/-- The loop-index-aware identity shared by `exAlphaOriginal` and
`exAlphaCandidate`. -/
def alphaUid : InvocationId × ℕ := (exAlphaOriginal.id, 1)

/-- Original-side results for the pass/fail-regression example: the regressing
invocation timed out on the original, a second invocation is normal. -/
def exRegressionOriginal : TestResults :=
  [exAlphaOriginal,
   mkInvocation "beta" 1 .existingUnitTest true (some 10) false (.vInt 0)]

/-- Candidate-side results: `alpha` now fails (with the identical return
value), `beta` matches. -/
def exRegressionCandidate : TestResults :=
  [exAlphaCandidate,
   mkInvocation "beta" 1 .existingUnitTest true (some 8) false (.vInt 0)]

/-- Original-side results with a genuine (non-timed-out) pass/fail regression. -/
def exDirectRegressionOriginal : TestResults :=
  [mkInvocation "gamma" 1 .existingUnitTest true (some 10) false (.vInt 7)]

/-- Candidate-side results: same identity and return value, now failing. -/
def exDirectRegressionCandidate : TestResults :=
  [mkInvocation "gamma" 1 .existingUnitTest false (some 9) false (.vInt 7)]

/-- The identity shared by the direct-regression example. -/
def gammaUid : InvocationId × ℕ :=
  ((mkInvocation "gamma" 1 .existingUnitTest true (some 10) false (.vInt 7)).id, 1)

/-- Original-side results in which every invocation timed out. -/
def exAllTimedOutOriginal : TestResults :=
  [mkInvocation "alpha" 1 .existingUnitTest true none true (.vInt 0)]

/-- Candidate-side results matching `exAllTimedOutOriginal`'s identity. -/
def exAllTimedOutCandidate : TestResults :=
  [mkInvocation "alpha" 1 .existingUnitTest true (some 8) false (.vInt 0)]

/-- Original-side results whose return value is a set of objects with raising
user-defined equality. -/
def exRaisingOriginal : TestResults :=
  [mkInvocation "alpha" 1 .generatedRegression true (some 5) false (.vSet [.raisingObj 0 0])]

/-- Candidate-side results with a distinct raising object in the set. -/
def exRaisingCandidate : TestResults :=
  [mkInvocation "alpha" 1 .generatedRegression true (some 5) false (.vSet [.raisingObj 0 1])]

/-- A working tree holding the original function file, one helper file, and an
unrelated file. -/
def exOriginalFs : FileSystem := fun p =>
  if p = "module.py" then "original code"
  else if p = "helper.py" then "helper code"
  else "unrelated content"

/-- A candidate evaluation interrupted right after overwriting the function
file with candidate code. -/
def exInterruptBody : CandidateBody := fun fs =>
  .interrupted (fun p => if p = "module.py" then "candidate code" else fs p)

/-- The working tree the interrupt handler leaves behind in the example. -/
def exInterruptFsEnd : FileSystem :=
  write_code_and_helpers "original code" [("helper.py", "helper code")] "module.py"
    (fun p => if p = "module.py" then "candidate code" else exOriginalFs p)

/-- A supported value exercising floats (NaN), decimals, sets, lists, tuples
and dicts at once. -/
def exSupportedValue : Value :=
  .vDict
    [(.vStr "xs", .vList [.vFloat .nan, .vFloat (.finite (1 / 3)), .vInt 7]),
     (.vInt 2, .vSet [.vFloat .nan, .vDecimal (5 / 2), .vStr "s"]),
     (.vStr "t", .vTuple [.vNone, .vBool true, .vFloat (.infty true)])]

/-! # Theorems -/

/-- Claim C1: `speedup_critic` accepts exactly when the gain
`(original − candidate)/candidate` exceeds the noise floor — the fixed
minimum-improvement threshold, doubled when the original runtime is below
10 µs (10,000 ns), and doubled again in the automated/CI (pull-request)
context — and the candidate runtime is strictly below the best runtime seen so
far.  Stated away from the `candidate_runtime = 0` input, where the source
raises `ZeroDivisionError`. -/
theorem speedup_critic_iff_spec
    (MIN_IMPROVEMENT_THRESHOLD : ℚ) (in_github_actions_mode : Bool)
    (candidate_result : OptimizedCandidateResult)
    (original_code_runtime best_runtime_until_now : ℕ)
    (h : candidate_result.best_test_runtime ≠ 0) :
    speedup_critic MIN_IMPROVEMENT_THRESHOLD in_github_actions_mode candidate_result
        original_code_runtime best_runtime_until_now = some true ↔
      (((original_code_runtime : ℚ) - (candidate_result.best_test_runtime : ℚ)) /
            (candidate_result.best_test_runtime : ℚ) >
          MIN_IMPROVEMENT_THRESHOLD * (if original_code_runtime < 10000 then 2 else 1) *
            (if in_github_actions_mode then 2 else 1) ∧
        candidate_result.best_test_runtime < best_runtime_until_now) := by
  unfold speedup_critic performance_gain
  rw [if_neg h]
  by_cases h1 : original_code_runtime < 10000 <;> cases in_github_actions_mode <;>
      simp [h1] <;>
    exact fun _ => ⟨fun hx => by linarith, fun hx => by linarith⟩

/-- Witness for `speedup_critic_iff_spec`: with threshold `1/10`, outside CI,
a 1000 ns original and an 800 ns candidate (25% gain) is accepted. -/
theorem speedup_critic_iff_spec_witness :
    speedup_critic (1 / 10) false fastCandidateResult 1000 1000 = some true :=
  (speedup_critic_iff_spec (1 / 10) false fastCandidateResult 1000 1000
        (by decide)).mpr
    ⟨by norm_num [fastCandidateResult], by decide⟩

theorem foldl_min_le_all (ts : List ℕ) (t : ℕ) :
    ts.foldl min t ≤ t ∧ ∀ x ∈ ts, ts.foldl min t ≤ x := by
  induction ts generalizing t with
  | nil => simp
  | cons y ys ih =>
    obtain ⟨h1, h2⟩ := ih (min t y)
    refine ⟨le_trans h1 (min_le_left _ _), ?_⟩
    intro x hx
    rcases List.mem_cons.mp hx with rfl | hx
    · exact le_trans h1 (min_le_right _ _)
    · exact h2 x hx

theorem foldl_min_mem (ts : List ℕ) (t : ℕ) :
    ts.foldl min t = t ∨ ts.foldl min t ∈ ts := by
  induction ts generalizing t with
  | nil => simp
  | cons y ys ih =>
    rw [List.foldl_cons]
    rcases ih (min t y) with he | hm
    · rw [he]
      rcases le_total t y with hle | hle
      · exact Or.inl (min_eq_left hle)
      · right
        rw [min_eq_right hle]
        exact List.mem_cons_self _ _
    · exact Or.inr (List.mem_cons_of_mem _ hm)

/-- The function `total_passed_runtime` picks one of the per-loop totals and is a lower
bound for all of them. -/
theorem total_passed_runtime_spec (rs : TestResults)
    (h : total_passed_runtime rs ≠ 0) :
    (∃ i ∈ loopIndices rs, total_passed_runtime rs = loopTotal rs i) ∧
      ∀ i ∈ loopIndices rs, total_passed_runtime rs ≤ loopTotal rs i := by
  unfold total_passed_runtime at h ⊢
  rcases hmap : (loopIndices rs).map (loopTotal rs) with _ | ⟨t, ts⟩ <;>
      rw [hmap] at h <;> dsimp only at h ⊢
  · simp at h
  · constructor
    · rcases foldl_min_mem ts t with he | hm
      · have ht : t ∈ (loopIndices rs).map (loopTotal rs) := by
          rw [hmap]; exact List.mem_cons_self _ _
        obtain ⟨i, hi, hie⟩ := List.mem_map.mp ht
        exact ⟨i, hi, by rw [he, hie]⟩
      · have ht : ts.foldl min t ∈ (loopIndices rs).map (loopTotal rs) := by
          rw [hmap]; exact List.mem_cons_of_mem _ hm
        obtain ⟨i, hi, hie⟩ := List.mem_map.mp ht
        exact ⟨i, hi, hie.symm⟩
    · intro i hi
      have ht : loopTotal rs i ∈ (loopIndices rs).map (loopTotal rs) :=
        List.mem_map_of_mem _ hi
      rw [hmap] at ht
      rcases List.mem_cons.mp ht with he | hm
      · rw [he]
        exact (foldl_min_le_all ts t).1
      · exact (foldl_min_le_all ts t).2 _ hm

/-- Claim C2: The runtime recorded in an established baseline is the minimum of
the per-loop total passed-test runtimes over the observed measurement loops —
one of the per-loop totals, and a lower bound for all of them — not their sum
or mean. -/
theorem baseline_runtime_is_min_loop_total
    (behavioral_results benchmarking_results : TestResults)
    (b : OriginalCodeBaseline) (fns : List (Option String))
    (h : establish_original_code_baseline behavioral_results benchmarking_results =
      .ok (b, fns)) :
    (∃ i ∈ loopIndices benchmarking_results,
        b.runtime = loopTotal benchmarking_results i) ∧
      ∀ i ∈ loopIndices benchmarking_results,
        b.runtime ≤ loopTotal benchmarking_results i := by
  unfold establish_original_code_baseline at h
  dsimp only at h
  split at h
  · exact absurd h (by simp)
  · rename_i hcond
    rw [Except.ok.injEq, Prod.mk.injEq] at h
    obtain ⟨hb, -⟩ := h
    subst hb
    have hnz : total_passed_runtime benchmarking_results ≠ 0 := by
      intro h0
      exact hcond (by simp [h0])
    exact total_passed_runtime_spec benchmarking_results hnz

/-- Witness for `baseline_runtime_is_min_loop_total`: per-loop totals
`[120, 95, 130]` ns yield the baseline runtime `95`, which is bounded by the
first loop's total `120`. -/
theorem baseline_runtime_is_min_loop_total_witness :
    establish_original_code_baseline exBehavioral exBenchmarking =
        .ok (⟨exBehavioral, exBenchmarking, 95⟩, []) ∧
      (95 : ℕ) ≤ loopTotal exBenchmarking 1 :=
  ⟨rfl,
    (baseline_runtime_is_min_loop_total exBehavioral exBenchmarking
        ⟨exBehavioral, exBenchmarking, 95⟩ [] rfl).2 1 (by decide)⟩

/-- Claim C3, counterexample: In the automated/CI (pull-request) context, a
candidate whose winning results contain exactly one passed test — a
replay-trace test — is accepted by `quantity_of_tests_critic` even though it
has fewer than 4 passed tests, so "in CI: accepted iff at least 4 passed
tests" fails: the source's final single-replay check is reached from the CI
branch as well. -/
theorem quantity_critic_ci_counterexample :
    quantity_of_tests_critic true singleReplayResult = true ∧
      totalPassCount singleReplayResult.best_test_results = 1 ∧
      ¬4 ≤ totalPassCount singleReplayResult.best_test_results :=
  ⟨rfl, rfl, by decide⟩

/-- Claim C3, amended: `quantity_of_tests_critic` accepts iff the candidate's
winning results contain: in the automated/CI context, at least 4 passed tests
OR exactly one passed test that is a replay-trace test; otherwise, at least 2
passed tests OR exactly one passed test that is a replay-trace test. -/
theorem quantity_critic_characterization (gh : Bool) (r : OptimizedCandidateResult) :
    quantity_of_tests_critic gh r = true ↔
      ((if gh then 4 ≤ totalPassCount r.best_test_results
          else 2 ≤ totalPassCount r.best_test_results) ∨
        (totalPassCount r.best_test_results = 1 ∧
          get_test_pass_fail_report_by_type r.best_test_results .replayTest = 1)) := by
  cases gh <;> simp [quantity_of_tests_critic]

/-- Claim C4: Evaluation of `run_optimized_candidate` at a candidate whose
behavioral checks pass but whose timing phase yields no successful timed loop
(`total_passed_runtime = 0`): the source merely logs a warning and returns
`Success` with `best_test_runtime = 0`, instead of the per-candidate `Failure`
the spec requires (contrast `establish_original_code_baseline`, which turns
the same zero-timing condition into `Failure`). -/
theorem zero_timing_candidate_returns_success :
    run_optimized_candidate exBaselineBehavioral exCandidateBehavioral [] 0 =
      .success exZeroCandidate ∧
      exZeroCandidate.best_test_runtime = 0 := by
  refine ⟨?_, rfl⟩
  simp [run_optimized_candidate, compare_test_results, compare_test_results_sys,
    test_ids_superset, get_all_unique_invocation_loop_ids, get_by_unique_invocation_loop_id,
    compareLoop, exBaselineBehavioral, exCandidateBehavioral, mkInvocation, comparator,
    pyEq, total_passed_runtime, loopIndices, loopTotal, exZeroCandidate]

/-- Claim C10: `performance_gain` is total exactly on positive optimized
runtimes: it raises `ZeroDivisionError` (modelled as `none`) precisely when
`optimized_runtime_ns = 0`; and that input is reachable, because a candidate
measurement with zero total passed-test runtime is still returned as a
`Success` by `run_optimized_candidate` and its `best_test_runtime` then feeds
`performance_gain` (and `speedup_critic`, which propagates the error). -/
theorem performance_gain_zero_division_reachable :
    (∀ original_runtime_ns optimized_runtime_ns : ℕ,
        performance_gain original_runtime_ns optimized_runtime_ns = none ↔
          optimized_runtime_ns = 0) ∧
      run_optimized_candidate exBaselineBehavioral exCandidateBehavioral [] 0 =
        .success exZeroCandidate ∧
      performance_gain 1000 exZeroCandidate.best_test_runtime = none ∧
      ∀ T gh best, speedup_critic T gh exZeroCandidate 1000 best = none := by
  refine ⟨?_, ?_, rfl, fun T gh best => rfl⟩
  · intro o n
    unfold performance_gain
    split <;> simp_all
  · simp [run_optimized_candidate, compare_test_results, compare_test_results_sys,
      test_ids_superset, get_all_unique_invocation_loop_ids, get_by_unique_invocation_loop_id,
      compareLoop, exBaselineBehavioral, exCandidateBehavioral, mkInvocation, comparator,
      pyEq, total_passed_runtime, loopIndices, loopTotal, exZeroCandidate]

theorem writeHelpers_pointwise (hc : List (String × String)) (fs : FileSystem) (p : String) :
    writeHelpers hc fs p =
      match lastHelperWrite p hc with
      | some s => s
      | none => fs p := by
  induction hc generalizing fs with
  | nil => rfl
  | cons e rest ih =>
    obtain ⟨q, s⟩ := e
    rw [writeHelpers, lastHelperWrite, ih]
    rcases lastHelperWrite p rest with _ | s'
    · by_cases hpq : p = q <;> simp [hpq]
    · simp

theorem lastHelperWrite_mem {p : String} {s : String} :
    ∀ {hc : List (String × String)}, lastHelperWrite p hc = some s → (p, s) ∈ hc := by
  intro hc
  induction hc with
  | nil => intro h; simp [lastHelperWrite] at h
  | cons e rest ih =>
    obtain ⟨q, s₀⟩ := e
    intro h
    rw [lastHelperWrite] at h
    rcases hr : lastHelperWrite p rest with _ | s' <;> rw [hr] at h
    · by_cases hpq : p = q
      · simp [hpq] at h
        simp [hpq, h]
      · simp [hpq] at h
    · simp at h
      subst h
      exact List.mem_cons_of_mem _ (ih hr)

theorem lastHelperWrite_none {p : String} :
    ∀ {hc : List (String × String)}, lastHelperWrite p hc = none →
      ∀ s, (p, s) ∉ hc := by
  intro hc
  induction hc with
  | nil => intro _ s h; simp at h
  | cons e rest ih =>
    obtain ⟨q, s₀⟩ := e
    intro h s hmem
    rw [lastHelperWrite] at h
    rcases hr : lastHelperWrite p rest with _ | s' <;> rw [hr] at h
    · rcases List.mem_cons.mp hmem with he | hm
      · rw [Prod.mk.injEq] at he
        simp [he.1] at h
      · exact ih hr s hm
    · simp at h

/-- Restoration invariant for the candidate loop: as long as every body only
touches the function file or helper files, an interrupt leaves the handler's
output equal to the starting tree everywhere. -/
theorem candidate_loop_restores_aux (original_code : String)
    (hc : List (String × String)) (path : String) (fs₀ : FileSystem)
    (hpath : fs₀ path = original_code)
    (hhelp : ∀ q s, (q, s) ∈ hc → fs₀ q = s) :
    ∀ (bodies : List CandidateBody) (fs fsEnd : FileSystem),
      (∀ b ∈ bodies, ∀ g g' p, p ≠ path → (∀ s, (p, s) ∉ hc) →
        (b g = .completed g' → g' p = g p) ∧ (b g = .interrupted g' → g' p = g p)) →
      (∀ p, p ≠ path → (∀ s, (p, s) ∉ hc) → fs p = fs₀ p) →
      determine_best_candidate_fs original_code hc path bodies fs = .interrupted fsEnd →
      ∀ p, fsEnd p = fs₀ p := by
  intro bodies
  induction bodies with
  | nil =>
    intro fs fsEnd _ _ hrun
    simp [determine_best_candidate_fs] at hrun
  | cons b rest ih =>
    intro fs fsEnd hframe hinv hrun
    rw [determine_best_candidate_fs] at hrun
    rcases hb : b fs with fs' | fsMid <;> rw [hb] at hrun
    · refine ih fs' fsEnd (fun b' hb' => hframe b' (List.mem_cons_of_mem _ hb')) ?_ hrun
      intro p hp hns
      rw [(hframe b (List.mem_cons_self _ _) fs fs' p hp hns).1 hb]
      exact hinv p hp hns
    · injection hrun with hEnd
      subst hEnd
      intro p
      rw [write_code_and_helpers, writeHelpers_pointwise]
      rcases hl : lastHelperWrite p hc with _ | s
      · by_cases hpq : p = path
        · simp [hpq, hpath]
        · simp only [hpq, if_false]
          rw [(hframe b (List.mem_cons_self _ _) fs fsMid p hpq (lastHelperWrite_none hl)).2 hb]
          exact hinv p hpq (lastHelperWrite_none hl)
      · exact (hhelp p s (lastHelperWrite_mem hl)).symm

/-- Claim C8: If a `KeyboardInterrupt` occurs during candidate evaluation, the
interrupt handler of `determine_best_candidate` restores the original function
file and all helper files before re-raising, so — provided candidate
evaluation only ever writes the function file and the helper files — the
working tree after the interrupted run equals its state before the run at
every path. -/
theorem interrupt_restores_original_sources (original_code : String)
    (original_helper_code : List (String × String)) (path : String)
    (bodies : List CandidateBody) (fs₀ fsEnd : FileSystem)
    (hpath : fs₀ path = original_code)
    (hhelp : ∀ q s, (q, s) ∈ original_helper_code → fs₀ q = s)
    (hframe : ∀ b ∈ bodies, ∀ g g' p, p ≠ path → (∀ s, (p, s) ∉ original_helper_code) →
      (b g = .completed g' → g' p = g p) ∧ (b g = .interrupted g' → g' p = g p))
    (hrun : determine_best_candidate_fs original_code original_helper_code path bodies fs₀ =
      .interrupted fsEnd) :
    ∀ p, fsEnd p = fs₀ p :=
  candidate_loop_restores_aux original_code original_helper_code path fs₀ hpath hhelp
    bodies fs₀ fsEnd hframe (fun _ _ _ => rfl) hrun

/-- Witness for `interrupt_restores_original_sources`: a candidate body that
overwrites the function file and is then interrupted; after the handler runs,
the function file, the helper file and an unrelated file all hold their
original contents. -/
theorem interrupt_restores_original_sources_witness :
    exInterruptFsEnd "module.py" = exOriginalFs "module.py" ∧
      exInterruptFsEnd "helper.py" = exOriginalFs "helper.py" ∧
      exInterruptFsEnd "notes.txt" = exOriginalFs "notes.txt" := by
  have h := interrupt_restores_original_sources "original code"
    [("helper.py", "helper code")] "module.py" [exInterruptBody] exOriginalFs
    exInterruptFsEnd rfl
    (by intro q s hm; simp at hm; simp [exOriginalFs, hm])
    (by
      intro b hb g g' p hp hns
      simp at hb
      subst hb
      constructor
      · intro hco; simp [exInterruptBody] at hco
      · intro hint
        simp only [exInterruptBody, BodyOutcome.interrupted.injEq] at hint
        subst hint
        simp [hp])
    rfl
  exact ⟨h "module.py", h "helper.py", h "notes.txt"⟩

/-! ### Structural induction machinery for the nested `Value` type -/

theorem value_strong_ind (P : Value → Prop)
    (h : ∀ v, (∀ w, sizeOf w < sizeOf v → P w) → P v) : ∀ v, P v := by
  intro v
  generalize hn : sizeOf v = n
  induction n using Nat.strong_induction_on generalizing v with
  | _ n ih => exact h v (fun w hw => ih (sizeOf w) (hn ▸ hw) w rfl)

theorem sizeOf_mem_list {x : Value} {xs : List Value} (h : x ∈ xs) :
    sizeOf x < 1 + sizeOf xs := by
  have := List.sizeOf_lt_of_mem h
  omega

theorem sizeOf_mem_pairs {k v : Value} {xs : List (Value × Value)} (h : (k, v) ∈ xs) :
    sizeOf k < 1 + sizeOf xs ∧ sizeOf v < 1 + sizeOf xs := by
  have h1 := List.sizeOf_lt_of_mem h
  have h2 : sizeOf (k, v) = 1 + sizeOf k + sizeOf v := rfl
  omega

/-! ### Reflexivity of structural equality -/

theorem beqList_refl_of {xs : List Value} (h : ∀ x ∈ xs, Value.beq x x = true) :
    Value.beqList xs xs = true := by
  induction xs with
  | nil => rfl
  | cons x rest ih =>
    rw [Value.beqList, h x (List.mem_cons_self _ _),
      ih (fun y hy => h y (List.mem_cons_of_mem _ hy))]
    rfl

theorem beqPairs_refl_of {xs : List (Value × Value)}
    (h : ∀ p ∈ xs, Value.beq p.1 p.1 = true ∧ Value.beq p.2 p.2 = true) :
    Value.beqPairs xs xs = true := by
  induction xs with
  | nil => rfl
  | cons p rest ih =>
    obtain ⟨k, v⟩ := p
    rw [Value.beqPairs, (h (k, v) (List.mem_cons_self _ _)).1,
      (h (k, v) (List.mem_cons_self _ _)).2,
      ih (fun q hq => h q (List.mem_cons_of_mem _ hq))]
    rfl

theorem beq_refl : ∀ v : Value, Value.beq v v = true := by
  refine value_strong_ind _ ?_
  intro v ih
  cases v with
  | vList xs =>
    rw [Value.beq]
    exact beqList_refl_of (fun x hx => ih x (by simpa using sizeOf_mem_list hx))
  | vTuple xs =>
    rw [Value.beq]
    exact beqList_refl_of (fun x hx => ih x (by simpa using sizeOf_mem_list hx))
  | vSet xs =>
    rw [Value.beq]
    exact beqList_refl_of (fun x hx => ih x (by simpa using sizeOf_mem_list hx))
  | vDict xs =>
    rw [Value.beq]
    refine beqPairs_refl_of (fun p hp => ?_)
    obtain ⟨k, w⟩ := p
    have := sizeOf_mem_pairs hp
    exact ⟨ih k (by simp; omega), ih w (by simp; omega)⟩
  | _ => simp [Value.beq]

theorem beq_self (v : Value) : (v == v) = true := beq_refl v

/-! ### Totality of Python equality on exception-free values -/

theorem exnFreeList_mem {xs : List Value} (h : exnFreeList xs = true) :
    ∀ x ∈ xs, exnFree x = true := by
  induction xs with
  | nil => intro x hx; simp at hx
  | cons y ys ih =>
    rw [exnFreeList, Bool.and_eq_true] at h
    intro x hx
    rcases List.mem_cons.mp hx with rfl | hx
    · exact h.1
    · exact ih h.2 x hx

theorem exnFreePairs_mem {xs : List (Value × Value)} (h : exnFreePairs xs = true) :
    ∀ p ∈ xs, exnFree p.1 = true ∧ exnFree p.2 = true := by
  induction xs with
  | nil => intro p hp; simp at hp
  | cons q qs ih =>
    obtain ⟨k, v⟩ := q
    rw [exnFreePairs, Bool.and_eq_true, Bool.and_eq_true] at h
    intro p hp
    rcases List.mem_cons.mp hp with rfl | hp
    · exact ⟨h.1.1, h.1.2⟩
    · exact ih h.2 p hp

theorem pyEqList_ok_of : ∀ {xs ys : List Value},
    (∀ x ∈ xs, ∀ y ∈ ys, ∃ b, pyEq x y = .ok b) → ∃ b, pyEqList xs ys = .ok b := by
  intro xs
  induction xs with
  | nil => intro ys _; cases ys <;> exact ⟨_, by rw [pyEqList]⟩
  | cons x xs ih =>
    intro ys h
    cases ys with
    | nil => exact ⟨_, by rw [pyEqList]⟩
    | cons y ys =>
      rw [pyEqList]
      by_cases hg : (x == y) = true
      · rw [if_pos hg]
        exact ih (fun a ha b hb =>
          h a (List.mem_cons_of_mem _ ha) b (List.mem_cons_of_mem _ hb))
      · rw [if_neg hg]
        obtain ⟨b, hb⟩ := h x (List.mem_cons_self _ _) y (List.mem_cons_self _ _)
        rw [hb]
        cases b
        · exact ⟨false, rfl⟩
        · exact ih (fun a ha b hb =>
            h a (List.mem_cons_of_mem _ ha) b (List.mem_cons_of_mem _ hb))

theorem pyEqMem_ok_of : ∀ {x : Value} {ys : List Value},
    (∀ y ∈ ys, ∃ b, pyEq x y = .ok b) → ∃ b, pyEqMem x ys = .ok b := by
  intro x ys
  induction ys with
  | nil => intro _; exact ⟨false, by rw [pyEqMem]⟩
  | cons y ys ih =>
    intro h
    rw [pyEqMem]
    by_cases hg : (x == y) = true
    · rw [if_pos hg]; exact ⟨true, rfl⟩
    · rw [if_neg hg]
      obtain ⟨b, hb⟩ := h y (List.mem_cons_self _ _)
      rw [hb]
      cases b
      · exact ih (fun a ha => h a (List.mem_cons_of_mem _ ha))
      · exact ⟨true, rfl⟩

theorem pyEqSubset_ok_of : ∀ {xs ys : List Value},
    (∀ x ∈ xs, ∀ y ∈ ys, ∃ b, pyEq x y = .ok b) → ∃ b, pyEqSubset xs ys = .ok b := by
  intro xs
  induction xs with
  | nil => intro ys _; exact ⟨true, by rw [pyEqSubset]⟩
  | cons x xs ih =>
    intro ys h
    rw [pyEqSubset]
    obtain ⟨b, hb⟩ := pyEqMem_ok_of (h x (List.mem_cons_self _ _))
    rw [hb]
    cases b
    · exact ⟨false, rfl⟩
    · exact ih (fun a ha => h a (List.mem_cons_of_mem _ ha))

theorem pyDictLookup_ok_of : ∀ {k : Value} {ys : List (Value × Value)},
    (∀ q ∈ ys, ∃ b, pyEq k q.1 = .ok b) → ∃ r, pyDictLookup k ys = .ok r := by
  intro k ys
  induction ys with
  | nil => intro _; exact ⟨none, by rw [pyDictLookup]⟩
  | cons q qs ih =>
    obtain ⟨k', v⟩ := q
    intro h
    rw [pyDictLookup]
    by_cases hg : (k == k') = true
    · rw [if_pos hg]; exact ⟨some v, rfl⟩
    · rw [if_neg hg]
      obtain ⟨b, hb⟩ := h (k', v) (List.mem_cons_self _ _)
      rw [hb]
      cases b
      · exact ih (fun q hq => h q (List.mem_cons_of_mem _ hq))
      · exact ⟨some v, rfl⟩

theorem pyDictLookup_mem : ∀ {k w : Value} {ys : List (Value × Value)},
    pyDictLookup k ys = .ok (some w) → ∃ k', (k', w) ∈ ys := by
  intro k w ys
  induction ys with
  | nil => intro h; rw [pyDictLookup] at h; simp at h
  | cons q qs ih =>
    obtain ⟨k', v⟩ := q
    intro h
    rw [pyDictLookup] at h
    by_cases hg : (k == k') = true
    · rw [if_pos hg] at h
      simp at h
      exact ⟨k', by simp [h]⟩
    · rw [if_neg hg] at h
      rcases he : pyEq k k' with e | b <;> rw [he] at h
      · simp at h
      · cases b
        · obtain ⟨k'', hk⟩ := ih h
          exact ⟨k'', List.mem_cons_of_mem _ hk⟩
        · simp at h
          exact ⟨k', by simp [h]⟩

theorem pyEqDictSub_ok_of : ∀ {xs ys : List (Value × Value)},
    (∀ p ∈ xs, ∀ q ∈ ys, (∃ b, pyEq p.1 q.1 = .ok b) ∧ ∃ b, pyEq p.2 q.2 = .ok b) →
      ∃ b, pyEqDictSub xs ys = .ok b := by
  intro xs
  induction xs with
  | nil => intro ys _; exact ⟨true, by rw [pyEqDictSub]⟩
  | cons p ps ih =>
    obtain ⟨k, v⟩ := p
    intro ys h
    rw [pyEqDictSub]
    obtain ⟨r, hr⟩ := pyDictLookup_ok_of
      (fun q hq => (h (k, v) (List.mem_cons_self _ _) q hq).1)
    rw [hr]
    rcases r with _ | w
    · exact ⟨false, rfl⟩
    · dsimp only
      by_cases hg : (v == w) = true
      · rw [if_pos hg]
        exact ih (fun p hp q hq => h p (List.mem_cons_of_mem _ hp) q hq)
      · rw [if_neg hg]
        obtain ⟨k'', hk⟩ := pyDictLookup_mem hr
        obtain ⟨b, hb⟩ := (h (k, v) (List.mem_cons_self _ _) (k'', w) hk).2
        rw [hb]
        cases b
        · exact ⟨false, rfl⟩
        · exact ih (fun p hp q hq => h p (List.mem_cons_of_mem _ hp) q hq)

/-- Python `==` never raises between two values free of raising user-defined
equality. -/
theorem pyEq_ok : ∀ x y : Value, exnFree x = true → exnFree y = true →
    ∃ b, pyEq x y = .ok b := by
  suffices H : ∀ n x y, sizeOf x + sizeOf y ≤ n → exnFree x = true → exnFree y = true →
      ∃ b, pyEq x y = .ok b from
    fun x y hx hy => H _ x y le_rfl hx hy
  intro n
  induction n using Nat.strong_induction_on with
  | _ n ih =>
    intro x y hs hx hy
    have hmem : ∀ xs ys : List Value,
        sizeOf xs + sizeOf ys + 2 ≤ n → exnFreeList xs = true → exnFreeList ys = true →
        ∀ a ∈ xs, ∀ b ∈ ys, ∃ c, pyEq a b = .ok c := by
      intro xs ys hsz hxl hyl a ha b hb
      have h1 := List.sizeOf_lt_of_mem ha
      have h2 := List.sizeOf_lt_of_mem hb
      exact ih (sizeOf a + sizeOf b) (by omega) a b le_rfl
        (exnFreeList_mem hxl a ha) (exnFreeList_mem hyl b hb)
    revert hs hx hy
    cases x <;> cases y <;> intro hs hx hy <;> simp only [pyEq] <;>
      first
        | exact ⟨_, rfl⟩
        | (exfalso; revert hx hy; simp [exnFree]; done)
        | skip
    case vList.vList xs ys =>
      simp only [exnFree] at hx hy
      simp only [Value.vList.sizeOf_spec] at hs
      exact pyEqList_ok_of (hmem xs ys (by omega) hx hy)
    case vTuple.vTuple xs ys =>
      simp only [exnFree] at hx hy
      simp only [Value.vTuple.sizeOf_spec] at hs
      exact pyEqList_ok_of (hmem xs ys (by omega) hx hy)
    case vSet.vSet xs ys =>
      simp only [exnFree] at hx hy
      simp only [Value.vSet.sizeOf_spec] at hs
      rw [pyEqSet]
      by_cases hl : xs.length = ys.length
      · rw [if_pos hl]
        exact pyEqSubset_ok_of (hmem xs ys (by omega) hx hy)
      · rw [if_neg hl]; exact ⟨false, rfl⟩
    case vDict.vDict xs ys =>
      simp only [exnFree] at hx hy
      simp only [Value.vDict.sizeOf_spec] at hs
      rw [pyEqDict]
      by_cases hl : xs.length = ys.length
      · rw [if_pos hl]
        refine pyEqDictSub_ok_of ?_
        intro p hp q hq
        have hp1 := exnFreePairs_mem hx p hp
        have hq1 := exnFreePairs_mem hy q hq
        have hps := List.sizeOf_lt_of_mem hp
        have hqs := List.sizeOf_lt_of_mem hq
        have hp2 : sizeOf p = 1 + sizeOf p.1 + sizeOf p.2 := by
          obtain ⟨a, b⟩ := p; rfl
        have hq2 : sizeOf q = 1 + sizeOf q.1 + sizeOf q.2 := by
          obtain ⟨a, b⟩ := q; rfl
        constructor
        · exact ih (sizeOf p.1 + sizeOf q.1) (by omega) _ _ le_rfl hp1.1 hq1.1
        · exact ih (sizeOf p.2 + sizeOf q.2) (by omega) _ _ le_rfl hp1.2 hq1.2
      · rw [if_neg hl]; exact ⟨false, rfl⟩

theorem comparatorList_ok_of : ∀ {xs ys : List Value},
    (∀ x ∈ xs, ∀ y ∈ ys, ∃ b, comparator x y = .ok b) →
      ∃ b, comparatorList xs ys = .ok b := by
  intro xs
  induction xs with
  | nil => intro ys _; cases ys <;> exact ⟨true, by simp [comparatorList]⟩
  | cons x xs ih =>
    intro ys h
    cases ys with
    | nil => exact ⟨true, by simp [comparatorList]⟩
    | cons y ys =>
      rw [comparatorList]
      obtain ⟨b, hb⟩ := h x (List.mem_cons_self _ _) y (List.mem_cons_self _ _)
      rw [hb]
      cases b
      · exact ⟨false, rfl⟩
      · exact ih (fun a ha b hb =>
          h a (List.mem_cons_of_mem _ ha) b (List.mem_cons_of_mem _ hb))

theorem comparatorDictEntries_ok_of : ∀ {xs ne : List (Value × Value)},
    (∀ p ∈ xs, ∀ q ∈ ne, ∃ b, pyEq p.1 q.1 = .ok b) →
    (∀ p ∈ xs, ∀ q ∈ ne, ∃ b, comparator p.2 q.2 = .ok b) →
      ∃ b, comparatorDictEntries ne xs = .ok b := by
  intro xs
  induction xs with
  | nil => intro ne _ _; exact ⟨true, by rw [comparatorDictEntries]⟩
  | cons p ps ih =>
    obtain ⟨k, v⟩ := p
    intro ne hk hv
    rw [comparatorDictEntries]
    obtain ⟨r, hr⟩ := pyDictLookup_ok_of
      (fun q hq => hk (k, v) (List.mem_cons_self _ _) q hq)
    rw [hr]
    rcases r with _ | w
    · exact ⟨false, rfl⟩
    · dsimp only
      obtain ⟨k'', hk''⟩ := pyDictLookup_mem hr
      obtain ⟨b, hb⟩ := hv (k, v) (List.mem_cons_self _ _) (k'', w) hk''
      rw [hb]
      cases b
      · exact ⟨false, rfl⟩
      · exact ih (fun p hp q hq => hk p (List.mem_cons_of_mem _ hp) q hq)
          (fun p hp q hq => hv p (List.mem_cons_of_mem _ hp) q hq)

/-- The comparator never raises between two values free of raising
user-defined equality. -/
theorem comparator_ok : ∀ x y : Value, exnFree x = true → exnFree y = true →
    ∃ b, comparator x y = .ok b := by
  suffices H : ∀ n x y, sizeOf x + sizeOf y ≤ n → exnFree x = true → exnFree y = true →
      ∃ b, comparator x y = .ok b from
    fun x y hx hy => H _ x y le_rfl hx hy
  intro n
  induction n using Nat.strong_induction_on with
  | _ n ih =>
    intro x y hs hx hy
    have hmem : ∀ xs ys : List Value,
        sizeOf xs + sizeOf ys + 2 ≤ n → exnFreeList xs = true → exnFreeList ys = true →
        ∀ a ∈ xs, ∀ b ∈ ys, ∃ c, comparator a b = .ok c := by
      intro xs ys hsz hxl hyl a ha b hb
      have h1 := List.sizeOf_lt_of_mem ha
      have h2 := List.sizeOf_lt_of_mem hb
      exact ih (sizeOf a + sizeOf b) (by omega) a b le_rfl
        (exnFreeList_mem hxl a ha) (exnFreeList_mem hyl b hb)
    revert hs hx hy
    cases x <;> cases y <;> intro hs hx hy <;> simp only [comparator] <;>
      first
        | exact ⟨_, rfl⟩
        | exact pyEq_ok _ _ hx hy
        | (exfalso; revert hx hy; simp [exnFree]; done)
        | skip
    case vFloat.vFloat a b =>
      split <;> exact ⟨_, rfl⟩
    case vList.vList xs ys =>
      simp only [exnFree] at hx hy
      simp only [Value.vList.sizeOf_spec] at hs
      split
      · exact comparatorList_ok_of (hmem xs ys (by omega) hx hy)
      · exact ⟨false, rfl⟩
    case vTuple.vTuple xs ys =>
      simp only [exnFree] at hx hy
      simp only [Value.vTuple.sizeOf_spec] at hs
      split
      · exact comparatorList_ok_of (hmem xs ys (by omega) hx hy)
      · exact ⟨false, rfl⟩
    case vDict.vDict xs ys =>
      simp only [exnFree] at hx hy
      simp only [Value.vDict.sizeOf_spec] at hs
      split
      · refine comparatorDictEntries_ok_of (fun p hp q hq => ?_) (fun p hp q hq => ?_)
        · exact pyEq_ok _ _ (exnFreePairs_mem hx p hp).1 (exnFreePairs_mem hy q hq).1
        · have hps := List.sizeOf_lt_of_mem hp
          have hqs := List.sizeOf_lt_of_mem hq
          have hp2 : sizeOf p = 1 + sizeOf p.1 + sizeOf p.2 := by
            obtain ⟨a, b⟩ := p; rfl
          have hq2 : sizeOf q = 1 + sizeOf q.1 + sizeOf q.2 := by
            obtain ⟨a, b⟩ := q; rfl
          exact ih (sizeOf p.2 + sizeOf q.2) (by omega) _ _ le_rfl
            (exnFreePairs_mem hx p hp).2 (exnFreePairs_mem hy q hq).2
      · exact ⟨false, rfl⟩

/-! ### The comparison loop -/

theorem comparator_vStr (a b : String) :
    comparator (.vStr a) (.vStr b) = .ok (decide (a = b)) := by
  simp [comparator, pyEq]

theorem get_by_isSome {rs : TestResults} {uid : InvocationId × ℕ} :
    (get_by_unique_invocation_loop_id rs uid).isSome = true ↔
      uid ∈ rs.map (fun r => (r.id, r.loopIndex)) := by
  unfold get_by_unique_invocation_loop_id
  rw [List.find?_isSome]
  constructor
  · rintro ⟨r, hr, hp⟩
    rw [decide_eq_true_iff] at hp
    exact hp ▸ List.mem_map_of_mem _ hr
  · intro hm
    obtain ⟨r, hr, he⟩ := List.mem_map.mp hm
    exact ⟨r, hr, by simp [he]⟩

/-- Every identity in the superset is found on at least one side. -/
theorem superset_covered (o c : TestResults) :
    ∀ uid ∈ test_ids_superset o c,
      (get_by_unique_invocation_loop_id o uid).isSome = true ∨
        (get_by_unique_invocation_loop_id c uid).isSome = true := by
  intro uid hm
  unfold test_ids_superset get_all_unique_invocation_loop_ids at hm
  rw [List.mem_dedup, List.mem_append, List.mem_dedup, List.mem_dedup] at hm
  rcases hm with hm | hm
  · exact Or.inl (get_by_isSome.mpr hm)
  · exact Or.inr (get_by_isSome.mpr hm)

/-- An identity found on the original side belongs to the superset. -/
theorem mem_superset_of_found {o c : TestResults} {uid : InvocationId × ℕ}
    {inv : FunctionTestInvocation}
    (h : get_by_unique_invocation_loop_id o uid = some inv) :
    uid ∈ test_ids_superset o c := by
  unfold test_ids_superset get_all_unique_invocation_loop_ids
  rw [List.mem_dedup, List.mem_append, List.mem_dedup]
  left
  have hmem := List.mem_of_find?_eq_some h
  have hp := List.find?_some h
  rw [decide_eq_true_iff] at hp
  exact hp ▸ List.mem_map_of_mem _ hmem

/-- When every original-side invocation timed out, the loop finishes (or
breaks) with `did_all_timeout` still `true` and never raises. -/
theorem compareLoop_all_timed_out (o c : TestResults)
    (htime : ∀ r ∈ o, r.timedOut = true) :
    ∀ l, (∀ uid ∈ l, (get_by_unique_invocation_loop_id o uid).isSome = true ∨
        (get_by_unique_invocation_loop_id c uid).isSome = true) →
      compareLoop o c l true = .ok (false, true) ∨
        compareLoop o c l true = .ok (true, true) := by
  intro l
  induction l with
  | nil => intro _; right; rw [compareLoop]
  | cons uid rest ih =>
    intro hcov
    rw [compareLoop]
    rcases ho : get_by_unique_invocation_loop_id o uid with _ | orig <;>
      rcases hc : get_by_unique_invocation_loop_id c uid with _ | cdd <;> dsimp only
    · exfalso
      rcases hcov uid (List.mem_cons_self _ _) with h | h
      · rw [ho] at h; simp at h
      · rw [hc] at h; simp at h
    · exact ih (fun u hu => hcov u (List.mem_cons_of_mem _ hu))
    · by_cases hvt : orig.verificationType = some VerificationType.initStateHelper
      · rw [if_pos hvt]
        exact ih (fun u hu => hcov u (List.mem_cons_of_mem _ hu))
      · rw [if_neg hvt]; left; rfl
    · have hto : orig.timedOut = true := htime orig (List.mem_of_find?_eq_some ho)
      rw [hto]
      simp only [Bool.and_self, if_true]
      exact ih (fun u hu => hcov u (List.mem_cons_of_mem _ hu))

/-- Claim C6: For every pair of non-empty test result sets in which every
original-side invocation is marked timed out, `compare_test_results` returns
`False` — the all-timed-out fallback — even when no per-identity mismatch
exists. -/
theorem all_timed_out_comparison_false (o c : TestResults)
    (hone : o ≠ []) (hcne : c ≠ [])
    (htime : ∀ r ∈ o, r.timedOut = true) :
    compare_test_results o c = .ok false := by
  unfold compare_test_results compare_test_results_sys
  have hoe : o.isEmpty = false := by
    cases o
    · exact absurd rfl hone
    · rfl
  have hce : c.isEmpty = false := by
    cases c
    · exact absurd rfl hcne
    · rfl
  rcases compareLoop_all_timed_out o c htime (test_ids_superset o c)
      (superset_covered o c) with h | h <;>
    simp [hoe, hce, h]

/-- Witness for `all_timed_out_comparison_false` at a concrete pair of
single-invocation result sets. -/
theorem all_timed_out_comparison_false_witness :
    exAllTimedOutOriginal ≠ [] ∧ exAllTimedOutCandidate ≠ [] ∧
      compare_test_results exAllTimedOutOriginal exAllTimedOutCandidate = .ok false := by
  refine ⟨by simp [exAllTimedOutOriginal], by simp [exAllTimedOutCandidate], ?_⟩
  refine all_timed_out_comparison_false _ _ (by simp [exAllTimedOutOriginal])
    (by simp [exAllTimedOutCandidate]) ?_
  intro r hr
  simp only [exAllTimedOutOriginal, List.mem_singleton] at hr
  subst hr
  rfl

theorem exnFreeResults_mem {rs : TestResults} (h : exnFreeResults rs = true) :
    ∀ r ∈ rs, exnFree r.returnValue = true := by
  intro r hr
  exact List.all_eq_true.mp h r hr

/-- Processing an identity with a non-timed-out pass/fail regression on a
pre-existing test type breaks the loop with `are_equal = false`, whatever
happens at the other identities (given raising-free return values and a
covered identity list). -/
theorem compareLoop_mismatch (o c : TestResults)
    (hoX : exnFreeResults o = true) (hcX : exnFreeResults c = true)
    {uid : InvocationId × ℕ} {oi ci : FunctionTestInvocation}
    (hfo : get_by_unique_invocation_loop_id o uid = some oi)
    (hfc : get_by_unique_invocation_loop_id c uid = some ci)
    (hnt : oi.timedOut = false)
    (hty : oi.testType = .existingUnitTest ∨ oi.testType = .concolicCoverageTest)
    (hdp : ci.didPass ≠ oi.didPass) :
    ∀ l dat, uid ∈ l →
      (∀ u ∈ l, (get_by_unique_invocation_loop_id o u).isSome = true ∨
        (get_by_unique_invocation_loop_id c u).isSome = true) →
      ∃ d, compareLoop o c l dat = .ok (false, d) := by
  intro l
  induction l with
  | nil => intro dat hm; simp at hm
  | cons u rest ih =>
    intro dat hm hcov
    rw [compareLoop]
    rcases ho : get_by_unique_invocation_loop_id o u with _ | orig <;>
      rcases hc : get_by_unique_invocation_loop_id c u with _ | cdd <;> dsimp only
    · exfalso
      rcases hcov u (List.mem_cons_self _ _) with h | h
      · rw [ho] at h; simp at h
      · rw [hc] at h; simp at h
    · rcases List.mem_cons.mp hm with rfl | hm'
      · rw [ho] at hfo; cases hfo
      · exact ih dat hm' (fun v hv => hcov v (List.mem_cons_of_mem _ hv))
    · rcases List.mem_cons.mp hm with rfl | hm'
      · rw [hc] at hfc; cases hfc
      · by_cases hvt : orig.verificationType = some VerificationType.initStateHelper
        · rw [if_pos hvt]
          exact ih dat hm' (fun v hv => hcov v (List.mem_cons_of_mem _ hv))
        · rw [if_neg hvt]; exact ⟨dat, rfl⟩
    · rcases List.mem_cons.mp hm with rfl | hm'
      · rw [ho] at hfo
        rw [hc] at hfc
        injection hfo with hfo
        injection hfc with hfc
        rw [← hfo] at hnt hty
        rw [← hfc, ← hfo] at hdp
        rw [hnt, if_neg (by simp)]
        obtain ⟨b, hb⟩ := comparator_ok orig.returnValue cdd.returnValue
          (exnFreeResults_mem hoX orig (List.mem_of_find?_eq_some ho))
          (exnFreeResults_mem hcX cdd (List.mem_of_find?_eq_some hc))
        rw [hb]
        cases b
        · exact ⟨_, rfl⟩
        · rw [if_pos ⟨hty, hdp⟩]
          exact ⟨_, rfl⟩
      · rcases hto : orig.timedOut with _ | _
        · rw [if_neg (by simp)]
          obtain ⟨b, hb⟩ := comparator_ok orig.returnValue cdd.returnValue
            (exnFreeResults_mem hoX orig (List.mem_of_find?_eq_some ho))
            (exnFreeResults_mem hcX cdd (List.mem_of_find?_eq_some hc))
          rw [hb]
          cases b
          · exact ⟨_, rfl⟩
          · by_cases hcond : (orig.testType = .existingUnitTest ∨
                orig.testType = .concolicCoverageTest) ∧ cdd.didPass ≠ orig.didPass
            · rw [if_pos hcond]
              exact ⟨_, rfl⟩
            · rw [if_neg hcond, comparator_vStr]
              by_cases hst : cleanup_stdout orig.stdout = cleanup_stdout cdd.stdout
              · rw [decide_eq_true hst]
                exact ih _ hm' (fun v hv => hcov v (List.mem_cons_of_mem _ hv))
              · rw [decide_eq_false hst]
                exact ⟨_, rfl⟩
        · rw [if_pos rfl]
          exact ih _ hm' (fun v hv => hcov v (List.mem_cons_of_mem _ hv))

/-- Claim C5, amended: For every pair of test result sets and every shared
invocation identity whose original-side test type is pre-existing
(non-generated: `EXISTING_UNIT_TEST` or `CONCOLIC_COVERAGE_TEST`), if the
candidate's `did_pass` differs from the original's for that identity — even
with equal return values — `compare_test_results` returns `False`, **provided
the original-side invocation did not time out** (the loop skips all checks for
identities that timed out on the original) and no comparison raises (return
values free of raising user-defined equality, the comparator contract the spec
assumes). -/
theorem passfail_regression_fails_comparison (o c : TestResults)
    (hoX : exnFreeResults o = true) (hcX : exnFreeResults c = true)
    {uid : InvocationId × ℕ} {oi ci : FunctionTestInvocation}
    (hfo : get_by_unique_invocation_loop_id o uid = some oi)
    (hfc : get_by_unique_invocation_loop_id c uid = some ci)
    (hnt : oi.timedOut = false)
    (hty : oi.testType = .existingUnitTest ∨ oi.testType = .concolicCoverageTest)
    (hdp : ci.didPass ≠ oi.didPass) :
    compare_test_results o c = .ok false := by
  unfold compare_test_results compare_test_results_sys
  have hone : o.isEmpty = false := by
    cases ho2 : o
    · rw [ho2] at hfo; simp [get_by_unique_invocation_loop_id] at hfo
    · rfl
  have hcne : c.isEmpty = false := by
    cases hc2 : c
    · rw [hc2] at hfc; simp [get_by_unique_invocation_loop_id] at hfc
    · rfl
  obtain ⟨d, hd⟩ := compareLoop_mismatch o c hoX hcX hfo hfc hnt hty hdp
    (test_ids_superset o c) true (mem_superset_of_found hfo) (superset_covered o c)
  simp [hone, hcne, hd]

/-- Witness for `passfail_regression_fails_comparison`: a single-identity
pair where the candidate's previously-passing existing unit test now fails
with the identical return value. -/
theorem passfail_regression_fails_comparison_witness :
    compare_test_results exDirectRegressionOriginal exDirectRegressionCandidate =
      .ok false := by
  have hfo : get_by_unique_invocation_loop_id exDirectRegressionOriginal gammaUid =
      some (mkInvocation "gamma" 1 .existingUnitTest true (some 10) false (.vInt 7)) := rfl
  have hfc : get_by_unique_invocation_loop_id exDirectRegressionCandidate gammaUid =
      some (mkInvocation "gamma" 1 .existingUnitTest false (some 9) false (.vInt 7)) := rfl
  exact passfail_regression_fails_comparison _ _ rfl rfl hfo hfc rfl (Or.inl rfl)
    (by decide)

/-- Claim C5, counterexample: The claim without the timeout proviso fails: in
`exRegressionOriginal`/`exRegressionCandidate` the identity `alphaUid` carries
an `EXISTING_UNIT_TEST` invocation with `did_pass = True` on the original and
`did_pass = False` (identical return value) on the candidate, yet
`compare_test_results` returns `True`, because the original-side invocation
timed out and the loop skips the pass/fail check for it. -/
theorem passfail_regression_timeout_counterexample :
    compare_test_results exRegressionOriginal exRegressionCandidate = .ok true ∧
      get_by_unique_invocation_loop_id exRegressionOriginal alphaUid =
        some exAlphaOriginal ∧
      get_by_unique_invocation_loop_id exRegressionCandidate alphaUid =
        some exAlphaCandidate ∧
      exAlphaOriginal.testType = .existingUnitTest ∧
      exAlphaOriginal.didPass = true ∧
      exAlphaCandidate.didPass = false ∧
      exAlphaOriginal.returnValue = exAlphaCandidate.returnValue := by
  refine ⟨?_, rfl, rfl, rfl, rfl, rfl, rfl⟩
  simp [compare_test_results, compare_test_results_sys, test_ids_superset,
    get_all_unique_invocation_loop_ids, get_by_unique_invocation_loop_id, compareLoop,
    exRegressionOriginal, exRegressionCandidate, exAlphaOriginal, exAlphaCandidate,
    mkInvocation, comparator, pyEq]

/-- Claim C7, counterexample: An exception raised during the comparison (here:
a return-value `set` whose elements carry raising user-defined equality)
escapes `compare_test_results` while the recursion limit is still raised to
`INCREASED_RECURSION_LIMIT = 5000`: entering at the CPython default limit
1000, the function exits on the exception path with the limit at 5000, not
1000 — there is no `try`/`finally` around the loop. -/
theorem recursion_limit_not_restored_on_exception :
    compare_test_results_sys DEFAULT_RECURSION_LIMIT exRaisingOriginal exRaisingCandidate =
        (.error .userEqError, INCREASED_RECURSION_LIMIT) ∧
      INCREASED_RECURSION_LIMIT ≠ DEFAULT_RECURSION_LIMIT := by
  refine ⟨?_, by decide⟩
  simp [compare_test_results_sys, test_ids_superset, get_all_unique_invocation_loop_ids,
    get_by_unique_invocation_loop_id, compareLoop, exRaisingOriginal, exRaisingCandidate,
    mkInvocation, comparator, pyEq, pyEqSet, pyEqSubset, pyEqMem, instBEqValue,
    Value.beq, DEFAULT_RECURSION_LIMIT, INCREASED_RECURSION_LIMIT]

/-- Claim C7, amended: On every exit path of `compare_test_results` that
returns normally — the empty-input early return, a mismatch break, or full
loop completion — the interpreter recursion limit in force on entry is
restored before control leaves; only an exception escaping the comparison
leaves the temporarily raised limit in force. -/
theorem recursion_limit_restored_on_normal_exit (limit : ℕ) (o c : TestResults) (b : Bool)
    (h : (compare_test_results_sys limit o c).1 = .ok b) :
    (compare_test_results_sys limit o c).2 = limit := by
  unfold compare_test_results_sys at h ⊢
  by_cases he : (o.isEmpty || c.isEmpty) = true
  · simp [he]
  · simp only [he, Bool.false_eq_true, if_false] at h ⊢
    rcases hl : compareLoop o c (test_ids_superset o c) true with e | p
    · rw [hl] at h; simp at h
    · obtain ⟨eq, dat⟩ := p
      rfl

/-- Witness for `recursion_limit_restored_on_normal_exit`: a successful
comparison entered at the default limit exits at the default limit. -/
theorem recursion_limit_restored_on_normal_exit_witness :
    (compare_test_results_sys DEFAULT_RECURSION_LIMIT exBaselineBehavioral
        exCandidateBehavioral).2 = DEFAULT_RECURSION_LIMIT := by
  refine recursion_limit_restored_on_normal_exit _ _ _ true ?_
  simp [compare_test_results_sys, test_ids_superset, get_all_unique_invocation_loop_ids,
    get_by_unique_invocation_loop_id, compareLoop, exBaselineBehavioral,
    exCandidateBehavioral, mkInvocation, comparator, pyEq]

/-! ### Reflexivity of the comparator on the supported domain -/

theorem deepcopyList_id_of {xs : List Value} (h : ∀ x ∈ xs, deepcopy x = x) :
    deepcopyList xs = xs := by
  induction xs with
  | nil => rfl
  | cons x rest ih =>
    rw [deepcopyList, h x (List.mem_cons_self _ _),
      ih (fun y hy => h y (List.mem_cons_of_mem _ hy))]

theorem deepcopyPairs_id_of {xs : List (Value × Value)}
    (h : ∀ p ∈ xs, deepcopy p.1 = p.1 ∧ deepcopy p.2 = p.2) :
    deepcopyPairs xs = xs := by
  induction xs with
  | nil => rfl
  | cons p rest ih =>
    obtain ⟨k, v⟩ := p
    rw [deepcopyPairs, (h (k, v) (List.mem_cons_self _ _)).1,
      (h (k, v) (List.mem_cons_self _ _)).2,
      ih (fun q hq => h q (List.mem_cons_of_mem _ hq))]

/-- The embedded `copy.deepcopy` rebuilds a structurally identical value. -/
theorem deepcopy_id : ∀ v : Value, deepcopy v = v := by
  refine value_strong_ind _ ?_
  intro v ih
  cases v with
  | vList xs =>
    rw [deepcopy]
    rw [deepcopyList_id_of (fun x hx => ih x (by simpa using sizeOf_mem_list hx))]
  | vTuple xs =>
    rw [deepcopy]
    rw [deepcopyList_id_of (fun x hx => ih x (by simpa using sizeOf_mem_list hx))]
  | vSet xs =>
    rw [deepcopy]
    rw [deepcopyList_id_of (fun x hx => ih x (by simpa using sizeOf_mem_list hx))]
  | vDict xs =>
    rw [deepcopy]
    rw [deepcopyPairs_id_of (fun p hp => ?_)]
    obtain ⟨k, w⟩ := p
    have := sizeOf_mem_pairs hp
    exact ⟨ih k (by simp; omega), ih w (by simp; omega)⟩
  | _ => rfl

theorem dictKeysOkList_mem {xs : List Value} (h : dictKeysOkList xs = true) :
    ∀ x ∈ xs, dictKeysOk x = true := by
  induction xs with
  | nil => intro x hx; simp at hx
  | cons y ys ih =>
    rw [dictKeysOkList, Bool.and_eq_true] at h
    intro x hx
    rcases List.mem_cons.mp hx with rfl | hx
    · exact h.1
    · exact ih h.2 x hx

theorem dictKeysOkPairs_mem {xs : List (Value × Value)} (h : dictKeysOkPairs xs = true) :
    ∀ p ∈ xs, dictKeysOk p.1 = true ∧ dictKeysOk p.2 = true := by
  induction xs with
  | nil => intro p hp; simp at hp
  | cons q qs ih =>
    obtain ⟨k, v⟩ := q
    rw [dictKeysOkPairs] at h
    simp only [Bool.and_eq_true] at h
    intro p hp
    rcases List.mem_cons.mp hp with rfl | hp
    · exact ⟨h.1.1.2, h.1.2⟩
    · exact ih h.2 p hp

theorem keyNotIn_spec {k₀ : Value} {rest : List (Value × Value)}
    (h : keyNotIn k₀ rest = true) :
    ∀ p ∈ rest, (k₀ == p.1) = false ∧ (p.1 == k₀) = false ∧
      pyEqBool k₀ p.1 = false ∧ pyEqBool p.1 k₀ = false := by
  induction rest with
  | nil => intro p hp; simp at hp
  | cons q qs ih =>
    obtain ⟨k', v'⟩ := q
    rw [keyNotIn] at h
    simp only [Bool.and_eq_true, Bool.not_eq_eq_eq_not, Bool.not_true] at h
    intro p hp
    rcases List.mem_cons.mp hp with rfl | hp
    · exact ⟨h.1.1.1.1, h.1.1.1.2, h.1.1.2, h.1.2⟩
    · exact ih h.2 p hp

/-- Looking up a key of a well-formed dict (pairwise-distinct keys, no raising
equality among keys) finds that key's value. -/
theorem pyDictLookup_self : ∀ {xs : List (Value × Value)} {k v : Value},
    dictKeysOkPairs xs = true → exnFreePairs xs = true → exnFree k = true →
    (k, v) ∈ xs → pyDictLookup k xs = .ok (some v) := by
  intro xs
  induction xs with
  | nil => intro k v _ _ _ hm; simp at hm
  | cons q rest ih =>
    obtain ⟨k₀, v₀⟩ := q
    intro k v hwf hex hk hm
    rw [dictKeysOkPairs] at hwf
    simp only [Bool.and_eq_true] at hwf
    rw [exnFreePairs] at hex
    simp only [Bool.and_eq_true] at hex
    rw [pyDictLookup]
    rcases List.mem_cons.mp hm with he | hm'
    · rw [Prod.mk.injEq] at he
      rw [he.1, if_pos (beq_self k₀), he.2]
    · have hspec := keyNotIn_spec hwf.1.1.1 (k, v) hm'
      rw [if_neg (by simp [hspec.2.1])]
      obtain ⟨b, hb⟩ := pyEq_ok k k₀ hk hex.1.1
      have hfb : pyEqBool k k₀ = b := by rw [pyEqBool, hb]
      rw [hspec.2.2.2] at hfb
      rw [hb, ← hfb]
      exact ih hwf.2 hex.2 hk hm'

theorem pyEqMem_self {x : Value} : ∀ {ys : List Value}, x ∈ ys →
    (∀ y ∈ ys, ∃ b, pyEq x y = .ok b) → pyEqMem x ys = .ok true := by
  intro ys
  induction ys with
  | nil => intro hx; simp at hx
  | cons y ys ih =>
    intro hx hok
    rw [pyEqMem]
    by_cases hg : (x == y) = true
    · rw [if_pos hg]
    · rw [if_neg hg]
      obtain ⟨b, hb⟩ := hok y (List.mem_cons_self _ _)
      rw [hb]
      cases b
      · have hx' : x ∈ ys := by
          rcases List.mem_cons.mp hx with rfl | h
          · exact absurd (beq_self x) hg
          · exact h
        exact ih hx' (fun z hz => hok z (List.mem_cons_of_mem _ hz))
      · rfl

theorem pyEqSubset_self {ys : List Value} : ∀ {xs : List Value},
    (∀ x ∈ xs, x ∈ ys) → (∀ x ∈ xs, ∀ y ∈ ys, ∃ b, pyEq x y = .ok b) →
    pyEqSubset xs ys = .ok true := by
  intro xs
  induction xs with
  | nil => intro _ _; rw [pyEqSubset]
  | cons x rest ih =>
    intro hsub hok
    rw [pyEqSubset,
      pyEqMem_self (hsub x (List.mem_cons_self _ _)) (hok x (List.mem_cons_self _ _))]
    exact ih (fun a ha => hsub a (List.mem_cons_of_mem _ ha))
      (fun a ha => hok a (List.mem_cons_of_mem _ ha))

theorem comparatorList_refl_of {xs : List Value}
    (h : ∀ x ∈ xs, comparator x x = .ok true) : comparatorList xs xs = .ok true := by
  induction xs with
  | nil => simp [comparatorList]
  | cons x rest ih =>
    rw [comparatorList, h x (List.mem_cons_self _ _)]
    exact ih (fun y hy => h y (List.mem_cons_of_mem _ hy))

theorem comparatorDictEntries_refl_of {xs : List (Value × Value)}
    (hwf : dictKeysOkPairs xs = true) (hex : exnFreePairs xs = true)
    (hcomp : ∀ p ∈ xs, comparator p.2 p.2 = .ok true) :
    ∀ l, (∀ p ∈ l, p ∈ xs) → comparatorDictEntries xs l = .ok true := by
  intro l
  induction l with
  | nil => intro _; rw [comparatorDictEntries]
  | cons p rest ih =>
    obtain ⟨k, v⟩ := p
    intro hsub
    rw [comparatorDictEntries,
      pyDictLookup_self hwf hex
        (exnFreePairs_mem hex (k, v) (hsub (k, v) (List.mem_cons_self _ _))).1
        (hsub (k, v) (List.mem_cons_self _ _))]
    dsimp only
    rw [hcomp (k, v) (hsub (k, v) (List.mem_cons_self _ _))]
    exact ih (fun q hq => hsub q (List.mem_cons_of_mem _ hq))

/-- The comparator accepts every supported value compared against itself. -/
theorem comparator_refl : ∀ v : Value, supportedValue v = true →
    comparator v v = .ok true := by
  refine value_strong_ind _ ?_
  intro v ih hs
  rw [supportedValue, Bool.and_eq_true] at hs
  obtain ⟨hex, hwf⟩ := hs
  have hmem : ∀ xs : List Value, exnFreeList xs = true → dictKeysOkList xs = true →
      sizeOf xs + 1 ≤ sizeOf v → ∀ x ∈ xs, comparator x x = .ok true := by
    intro xs hx hk hsz x hxm
    have := List.sizeOf_lt_of_mem hxm
    refine ih x (by omega) ?_
    rw [supportedValue, Bool.and_eq_true]
    exact ⟨exnFreeList_mem hx x hxm, dictKeysOkList_mem hk x hxm⟩
  cases v with
  | vNone => simp [comparator, pyEq]
  | vBool b => simp [comparator, pyEq]
  | vInt n => simp [comparator, pyEq]
  | vStr s => simp [comparator, pyEq]
  | vDecimal q => simp [comparator, pyEq]
  | raisingObj cls tag => simp [exnFree] at hex
  | vFloat f =>
    cases f with
    | nan => simp [comparator, PyFloat.isnan]
    | finite q =>
      simp only [comparator, PyFloat.isnan, Bool.and_self, Bool.false_eq_true, if_false,
        PyFloat.isclose, Except.ok.injEq, decide_eq_true_iff]
      rw [sub_self, abs_zero]
      exact le_max_right _ 0
    | infty s => simp [comparator, PyFloat.isnan, PyFloat.isclose]
  | vList xs =>
    rw [comparator, if_pos rfl]
    simp only [exnFree] at hex
    simp only [dictKeysOk] at hwf
    exact comparatorList_refl_of (hmem xs hex hwf (by simp; omega))
  | vTuple xs =>
    rw [comparator, if_pos rfl]
    simp only [exnFree] at hex
    simp only [dictKeysOk] at hwf
    exact comparatorList_refl_of (hmem xs hex hwf (by simp; omega))
  | vSet xs =>
    rw [comparator, pyEq, pyEqSet, if_pos rfl]
    simp only [exnFree] at hex
    refine pyEqSubset_self (fun x hx => hx) (fun x hx y hy => ?_)
    exact pyEq_ok x y (exnFreeList_mem hex x hx) (exnFreeList_mem hex y hy)
  | vDict xs =>
    rw [comparator, if_pos rfl]
    simp only [exnFree] at hex
    simp only [dictKeysOk] at hwf
    refine comparatorDictEntries_refl_of hwf hex (fun p hp => ?_) xs (fun q hq => hq)
    have hsz := List.sizeOf_lt_of_mem hp
    have hps : sizeOf p = 1 + sizeOf p.1 + sizeOf p.2 := by
      obtain ⟨a, b⟩ := p; rfl
    refine ih p.2 (by simp; omega) ?_
    rw [supportedValue, Bool.and_eq_true]
    exact ⟨(exnFreePairs_mem hex p hp).2, (dictKeysOkPairs_mem hwf p hp).2⟩

/-- Claim C9: For every value of a supported type — `None`, booleans, ints,
strings, floats (NaN and infinities included), fixed-point decimals, and
lists, tuples, sets and dicts thereof, well-formed and without raising
user-defined equality — the comparator accepts the value against a deep copy
of itself: reflexivity that does not rely on object identity. -/
theorem comparator_reflexive_after_deepcopy (v : Value)
    (h : supportedValue v = true) : comparator v (deepcopy v) = .ok true := by
  rw [deepcopy_id]
  exact comparator_refl v h

/-- Witness for `comparator_reflexive_after_deepcopy` at a value exercising
floats (NaN and infinity), decimals, sets, lists, tuples and dicts at once. -/
theorem comparator_reflexive_after_deepcopy_witness :
    comparator exSupportedValue (deepcopy exSupportedValue) = .ok true :=
  comparator_reflexive_after_deepcopy exSupportedValue (by
    simp [supportedValue, exSupportedValue, exnFree, exnFreeList, exnFreePairs,
      dictKeysOk, dictKeysOkList, dictKeysOkPairs, keyNotIn, pyEqBool, pyEq,
      instBEqValue, Value.beq])

end Codeflash
